import Mathlib

/-!
# MatrixPipe: a verification development

A shallow embedding of `Matrix.h`, `FlatMap.h`, `Pipe.h`, `FunctionCompose.h` and
of `main.cpp` (reading matrices, decoding operations, building the pipeline),
followed by the theorems that settle the specification claims against it.

Modelling conventions.

* The element type `T` is a parameter.  The arithmetic of the source (`+=`,
  `*`, value-initialisation `T{}`) is taken from `Add T`, `Mul T`, `Zero T`;
  theorems about exact arithmetic assume a (semi)ring.
* A buffer `T *data` is the list of its elements; `nullptr` is the empty list.
  `size_type` values are natural numbers below `2 ^ 64`; the products and sums
  the source computes in `size_type` (the element count `sz` of the
  constructors, `size()`, the index of `operator()`) wrap modulo `2 ^ 64`
  (`size_t_mul`, `size_t_add`).  A buffer that is allocated holds exactly the
  `sz` elements the source passes to `allocate`.  Allocation itself is taken
  to succeed.
* A read or write outside the buffer is undefined behaviour in the source.  The
  model makes it visible as the outcome `Exception.buffer_overrun`, so that
  "succeeds" also says that no such access happens.
* A member function that mutates `*this` is a function from the state of
  `*this` to the pair of its final state and the outcome of the call; the state
  in the pair is the state the caller observes, also when an exception leaves
  the call.
* A stream is the list of the characters not yet read with its `eofbit` and
  `failbit`; the files are a function from a name to the content of the file,
  `none` for a file that cannot be opened; `std::stod` is a parameter.
* A loop whose number of iterations is not known beforehand runs under a bound
  computed from the characters left to read; that the bound is never reached is
  proved (`split_loop_fuel`, `read_matrix_outcome`, `config_error_thrown`).
-/

namespace MatrixPipe

/-- Outcomes other than a normal return: the exceptions of the program, by type
and message (`out_of_range` and `invalid_argument` are the `std::out_of_range`
and `std::invalid_argument` of the standard library, whose messages the source
does not fix), `buffer_overrun` for an access outside a buffer, and
`loop_bound` for a loop of the model that used up its iteration bound (the
bounds are large enough for this never to happen, as is proved of each). -/
inductive Exception where
  | MatrixException (what : String)
  | runtime_error (what : String)
  | out_of_range
  | buffer_overrun
  | invalid_argument
  | loop_bound
  deriving DecidableEq, Repr

/-- Multiplication in `std::size_t` (64 bits): the product modulo `2 ^ 64`; a
product below `2 ^ 64` is returned as it is. -/
def size_t_mul (a b : Nat) : Nat :=
  if a * b < 2 ^ 64 then a * b else (a * b) % 2 ^ 64

/-- Addition in `std::size_t` (64 bits): the sum modulo `2 ^ 64`; a sum below
`2 ^ 64` is returned as it is. -/
def size_t_add (a b : Nat) : Nat :=
  if a + b < 2 ^ 64 then a + b else (a + b) % 2 ^ 64

/-- Class `Matrix<T, Alloc>`: the private members `data`, `row_count`,
`element_count` (the column count). -/
structure Matrix (T : Type) where
  data : List T
  row_count : Nat
  element_count : Nat
  deriving DecidableEq, Repr

namespace detail

/-- Function `detail::uninitialized_default_construct` over a range of `n` slots, for an
element type whose value-initialisation `T()` is zero and cannot throw. -/
def uninitialized_default_construct {T : Type} [Zero T] : Nat → List T
  | 0 => []
  | n + 1 => (0 : T) :: uninitialized_default_construct n

/-- Function `detail::uninitialized_fill` over a range of `n` slots, for an element type whose
copy construction cannot throw. -/
def uninitialized_fill {T : Type} (value : T) : Nat → List T
  | 0 => []
  | n + 1 => value :: uninitialized_fill value n

/-- Function `detail::uninitialized_copy` of the `n` elements of `src` starting at index
`first`, for an element type whose copy construction cannot throw. -/
def uninitialized_copy {T : Type} (src : List T) : Nat → Nat → Except Exception (List T)
  | 0, _ => .ok []
  | n + 1, first =>
    match src[first]? with
    | none => .error .buffer_overrun
    | some v =>
      match uninitialized_copy src n (first + 1) with
      | .ok rest => .ok (v :: rest)
      | .error e => .error e

end detail

namespace Matrix

variable {T : Type}

/-- Member `size()`: `element_count * row_count`, computed in `size_type`. -/
def size (self : Matrix T) : Nat :=
  size_t_mul self.element_count self.row_count

/-- Member `get_row_count()`. -/
def get_row_count (self : Matrix T) : Nat :=
  self.row_count

/-- Member `get_element_count()`. -/
def get_element_count (self : Matrix T) : Nat :=
  self.element_count

/-- The class invariant: the buffer holds `row_count * element_count` elements,
a number within `size_type`. -/
def wf (self : Matrix T) : Prop :=
  self.data.length = self.row_count * self.element_count ∧
    self.row_count * self.element_count < 2 ^ 64

instance (self : Matrix T) : Decidable self.wf := by
  unfold wf
  exact inferInstance

/-- Member `reset()`: `element_count = row_count = 0; data = nullptr`. -/
def reset (_self : Matrix T) : Matrix T :=
  { data := [], row_count := 0, element_count := 0 }

/-- Constructor `Matrix(row_count, element_count)`: `sz` value-initialised
elements, `size_type sz = row_count * element_count`. -/
def create [Zero T] (row_count element_count : Nat) : Matrix T :=
  let sz := size_t_mul row_count element_count
  { data := detail.uninitialized_default_construct sz
    row_count := row_count
    element_count := element_count }

/-- Constructor `Matrix(row_count, element_count, value)`: `sz` copies of
`value`, `size_type sz = row_count * element_count`. -/
def create_fill (row_count element_count : Nat) (value : T) : Matrix T :=
  let sz := size_t_mul row_count element_count
  { data := detail.uninitialized_fill value sz
    row_count := row_count
    element_count := element_count }

/-- Copy constructor `Matrix(const Matrix &m)`: the first `sz` elements of
`m.data` are copied, `size_type sz = row_count * element_count`. -/
def copy (m : Matrix T) : Except Exception (Matrix T) :=
  let sz := size_t_mul m.row_count m.element_count
  match detail.uninitialized_copy m.data sz 0 with
  | .ok d => .ok { data := d, row_count := m.row_count, element_count := m.element_count }
  | .error e => .error e

/-- Move assignment `operator=(Matrix &&m)`: the pair of the new `*this` and the
new `m`.  The members of `m` are taken over and `m` is reset. -/
def move_assign (_self m : Matrix T) : Matrix T × Matrix T :=
  ({ data := m.data, row_count := m.row_count, element_count := m.element_count }, m.reset)

/-- The index `i1 * element_count + i2` of `operator()`, computed in
`size_type`. -/
def index (self : Matrix T) (i1 i2 : Nat) : Nat :=
  size_t_add (size_t_mul i1 self.element_count) i2

/-- Read through `operator()(i1, i2) const`: `data[i1 * element_count + i2]`. -/
def operator_call (self : Matrix T) (i1 i2 : Nat) : Except Exception T :=
  match self.data[self.index i1 i2]? with
  | some v => .ok v
  | none => .error .buffer_overrun

/-- Write through `operator()(i1, i2)`: `data[i1 * element_count + i2] = v`. -/
def operator_call_assign (self : Matrix T) (i1 i2 : Nat) (v : T) :
    Except Exception (Matrix T) :=
  if self.index i1 i2 < self.data.length then
    .ok { self with data := self.data.set (self.index i1 i2) v }
  else .error .buffer_overrun

/-- The loop of `operator+=`: `data[i] += m.data[i]`, `n` iterations left; the
buffer reached and the outcome. -/
def operator_plus_eq_loop [Add T] (m_data : List T) :
    Nat → Nat → List T → List T × Except Exception Unit
  | 0, _, data => (data, .ok ())
  | n + 1, i, data =>
    match data[i]?, m_data[i]? with
    | some a, some b => operator_plus_eq_loop m_data n (i + 1) (data.set i (a + b))
    | _, _ => (data, .error .buffer_overrun)

/-- Member `operator+=(const Matrix &m)`. -/
def operator_plus_eq [Add T] (self m : Matrix T) : Matrix T × Except Exception Unit :=
  if !(m.element_count == self.element_count && m.row_count == self.row_count) then
    (self, .error (.MatrixException "Matrix size mismatch"))
  else
    let r := operator_plus_eq_loop m.data self.size 0 self.data
    ({ self with data := r.1 }, r.2)

/-- The loop of scalar `operator*=`: `data[i] *= value`, `n` iterations left. -/
def operator_mul_eq_scalar_loop [Mul T] (value : T) :
    Nat → Nat → List T → List T × Except Exception Unit
  | 0, _, data => (data, .ok ())
  | n + 1, i, data =>
    match data[i]? with
    | some a => operator_mul_eq_scalar_loop value n (i + 1) (data.set i (a * value))
    | none => (data, .error .buffer_overrun)

/-- Member `operator*=(const IntType &value)`, the scalar already converted to
the element type. -/
def operator_mul_eq_scalar [Mul T] (self : Matrix T) (value : T) :
    Matrix T × Except Exception Unit :=
  let r := operator_mul_eq_scalar_loop value self.size 0 self.data
  ({ self with data := r.1 }, r.2)

/-- The innermost loop of matrix `operator*=`: `res_val += (*this)(i, r) * m(r, j)`,
`n` iterations left. -/
def operator_mul_eq_inner [Add T] [Mul T] (self m : Matrix T) (i j : Nat) :
    Nat → Nat → T → Except Exception T
  | 0, _, res_val => .ok res_val
  | n + 1, r, res_val =>
    match self.operator_call i r, m.operator_call r j with
    | .ok a, .ok b => operator_mul_eq_inner self m i j n (r + 1) (res_val + a * b)
    | .error e, _ => .error e
    | _, .error e => .error e

/-- The loop over `j` of matrix `operator*=`: `result(i, j) = res_val` with
`res_val` accumulated from `value_type res_val{}`. -/
def operator_mul_eq_cols [Zero T] [Add T] [Mul T] (self m : Matrix T) (i : Nat) :
    Nat → Nat → Matrix T → Except Exception (Matrix T)
  | 0, _, result => .ok result
  | n + 1, j, result =>
    match operator_mul_eq_inner self m i j m.row_count 0 0 with
    | .error e => .error e
    | .ok res_val =>
      match result.operator_call_assign i j res_val with
      | .error e => .error e
      | .ok result1 => operator_mul_eq_cols self m i n (j + 1) result1

/-- The loop over `i` of matrix `operator*=`. -/
def operator_mul_eq_rows [Zero T] [Add T] [Mul T] (self m : Matrix T) :
    Nat → Nat → Matrix T → Except Exception (Matrix T)
  | 0, _, result => .ok result
  | n + 1, i, result =>
    match operator_mul_eq_cols self m i result.element_count 0 result with
    | .error e => .error e
    | .ok result1 => operator_mul_eq_rows self m n (i + 1) result1

/-- Member `operator*=(const Matrix &m)`: the product is built in the local
`result`, which is then move-assigned to `*this`. -/
def operator_mul_eq [Zero T] [Add T] [Mul T] (self m : Matrix T) :
    Matrix T × Except Exception Unit :=
  if self.element_count != m.row_count then
    (self, .error (.MatrixException "Matrix size mismatch"))
  else
    let result : Matrix T := create self.row_count m.element_count
    match operator_mul_eq_rows self m result.row_count 0 result with
    | .error e => (self, .error e)
    | .ok result1 => ((self.move_assign result1).1, .ok ())

/-- The loop of `dot`: `res += data[i] * rhs.data[i]`, `n` iterations left. -/
def dot_loop [Add T] [Mul T] (data rhs_data : List T) : Nat → Nat → T → Except Exception T
  | 0, _, res => .ok res
  | n + 1, i, res =>
    match data[i]?, rhs_data[i]? with
    | some a, some b => dot_loop data rhs_data n (i + 1) (res + a * b)
    | _, _ => .error .buffer_overrun

/-- Member `dot(const Matrix &rhs) const`.  The accumulator is declared
`value_type res;` with no initialiser, so for an arithmetic element type it
starts from an indeterminate value: the parameter `res`. -/
def dot [Add T] [Mul T] (res : T) (self rhs : Matrix T) : Except Exception T :=
  if !(self.get_element_count == rhs.get_element_count
      && self.get_row_count == rhs.get_row_count) then
    .error (.MatrixException "Size mismatch in matrices")
  else if self.get_row_count != 1 && self.get_element_count != 1 then
    .error (.MatrixException "Matrices have to be vectors")
  else
    dot_loop self.data rhs.data self.size 0 res

/-- Member `is_vector()`: `element_count == 1 || row_count == 1`. -/
def is_vector (self : Matrix T) : Bool :=
  self.element_count == 1 || self.row_count == 1

end Matrix

/-- The value a call leaves in the object it mutated, or the exception. -/
def value_after {T : Type} (r : Matrix T × Except Exception Unit) :
    Except Exception (Matrix T) :=
  match r.2 with
  | .ok _ => .ok r.1
  | .error e => .error e

/-- Function `matrix_mul` of main.cpp: `res(lhs); res *= rhs; return res`. -/
def matrix_mul {T : Type} [Zero T] [Add T] [Mul T] (lhs rhs : Matrix T) :
    Except Exception (Matrix T) :=
  match Matrix.copy lhs with
  | .error e => .error e
  | .ok res => value_after (res.operator_mul_eq rhs)

/-- Function `matrix_add` of main.cpp: `res(lhs); res += rhs; return res`. -/
def matrix_add {T : Type} [Add T] (lhs rhs : Matrix T) : Except Exception (Matrix T) :=
  match Matrix.copy lhs with
  | .error e => .error e
  | .ok res => value_after (res.operator_plus_eq rhs)

/-- Function `vec_dot_vec` of main.cpp: the 1-by-1 matrix holding `lhs.dot(rhs)`;
`res` is the indeterminate start of the accumulator of `dot`. -/
def vec_dot_vec {T : Type} [Add T] [Mul T] (res : T) (lhs rhs : Matrix T) :
    Except Exception (Matrix T) :=
  match lhs.dot res rhs with
  | .error e => .error e
  | .ok v => .ok (Matrix.create_fill 1 1 v)

/-! ### FlatMap.h -/

/-- Class `FlatMap<KeyType, ValueType, MaxKeyPairs>`: the arrays `keys` and
`values` and the member `count`.  The arrays are kept up to slot `count`; the
slots from `count` on are never assigned and never read by `operator[]`. -/
structure FlatMap (KeyType ValueType : Type) where
  keys : List KeyType
  values : List ValueType
  count : Nat

namespace FlatMap

variable {KeyType ValueType : Type}

/-- Template parameter `MaxKeyPairs` at its default. -/
def MaxKeyPairs : Nat := 10

/-- Constructor `FlatMap(const std::pair<KeyType, ValueType> (&init_arr)[N])`; the
argument `_h` is the `static_assert(N <= MaxKeyPairs)`. -/
def create (init_arr : List (KeyType × ValueType)) (_h : init_arr.length ≤ MaxKeyPairs) :
    FlatMap KeyType ValueType :=
  { keys := init_arr.map (fun p => p.1)
    values := init_arr.map (fun p => p.2)
    count := init_arr.length }

/-- The loop of `operator[]`, `n` iterations left; after the loop the
`std::runtime_error` is thrown. -/
def operator_index_loop [DecidableEq KeyType] (self : FlatMap KeyType ValueType)
    (key : KeyType) : Nat → Nat → Except Exception ValueType
  | 0, _ => .error (.runtime_error "value is not found")
  | n + 1, i =>
    match self.keys[i]?, self.values[i]? with
    | some k, some v => if key = k then .ok v else operator_index_loop self key n (i + 1)
    | _, _ => .error .buffer_overrun

/-- Member `operator[](const KeyType &key) const`. -/
def operator_index [DecidableEq KeyType] (self : FlatMap KeyType ValueType)
    (key : KeyType) : Except Exception ValueType :=
  operator_index_loop self key self.count 0

end FlatMap

/-! ### Pipe.h -/

/-- Class `Pipe<T, Alloc>`: the vector `function_objects`. -/
structure Pipe (F : Type) where
  function_objects : List F

namespace Pipe

/-- Constructor `Pipe(const Alloc &alloc = Alloc())`: no function object. -/
def create {F : Type} : Pipe F :=
  { function_objects := [] }

/-- Member `push_back(A &&a)`: `function_objects.push_back(a)`. -/
def push_back {F : Type} (self : Pipe F) (a : F) : Pipe F :=
  { function_objects := self.function_objects ++ [a] }

/-- The loop of `Pipe::operator()`: `temp = function_objects[i](temp)`, `n`
iterations left. -/
def operator_call_loop {A : Type} (function_objects : List (A → Except Exception A)) :
    Nat → Nat → A → Except Exception A
  | 0, _, temp => .ok temp
  | n + 1, i, temp =>
    match function_objects[i]? with
    | none => .error .buffer_overrun
    | some function =>
      match function temp with
      | .error e => .error e
      | .ok temp1 => operator_call_loop function_objects n (i + 1) temp1

/-- Member `operator()(A &&value) const`, for function objects that map a value to
a value of the same type or throw. -/
def operator_call {A : Type} (self : Pipe (A → Except Exception A)) (value : A) :
    Except Exception A :=
  operator_call_loop self.function_objects self.function_objects.length 0 value

end Pipe

/-! ### main.cpp: the operation directory and the binding of an operand -/

/-- Type `MatrixFunction`: `std::function<PmrMatrix<double>(const PmrMatrix<double> &)>`. -/
abbrev MatrixFunction (T : Type) : Type :=
  Matrix T → Except Exception (Matrix T)

/-- Subtraction of two `size_t` values: `a - b` modulo `2 ^ 64`. -/
def size_t_sub (a b : Nat) : Nat :=
  if b ≤ a then a - b else a + 2 ^ 64 - b

/-- Constant `std::string_view::npos`. -/
def npos : Nat := 2 ^ 64 - 1

/-- Member `std::string_view::substr(pos, count)`: throws `std::out_of_range` when
`pos > size()`, else the view of `min(count, size() - pos)` characters from
`pos`.  A string is the list of its bytes. -/
def substr (s : String) (pos count : Nat) : Except Exception String :=
  if pos > s.length then .error .out_of_range
  else .ok (String.mk ((s.data.drop pos).take count))

/-- The initialiser list of the static `map` of `decode_function`; `res` is the
indeterminate start of the accumulator of `Matrix::dot`, reached through
`vec_dot_vec`. -/
def decode_function_init_arr {T : Type} [Zero T] [Add T] [Mul T] (res : T) :
    List (String × (Matrix T → Matrix T → Except Exception (Matrix T))) :=
  [ ("mat_mul_vec", matrix_mul),
    ("mat_mul_mat", matrix_mul),
    ("vec_mul_mat", matrix_mul),
    ("vec_add_vec", matrix_add),
    ("mat_add_vec", matrix_add),
    ("mat_add_mat", matrix_add),
    ("vec_dot_vec", vec_dot_vec res) ]

/-- The static `map` of `decode_function`. -/
def decode_function_map {T : Type} [Zero T] [Add T] [Mul T] (res : T) :
    FlatMap String (Matrix T → Matrix T → Except Exception (Matrix T)) :=
  FlatMap.create (decode_function_init_arr res) (Nat.le_of_ble_eq_true rfl)

/-- The end of `decode_function`, from `std::string_view fun_name_view = function_name;`
on: the test that decides the operand order, and the closure returned, which
holds a copy of `matrix` and the function looked up in the map.  The view
`fun_name_view` is `function_name` itself, and `fun_name_view.size() - 3` is
computed in `size_t`: it wraps around for a name of fewer than three
characters. -/
def decode_function_bind {T : Type} [Zero T] [Add T] [Mul T] (res : T)
    (function_name : String) (matrix : Matrix T) : Except Exception (MatrixFunction T) :=
  match substr function_name 0 3,
      substr function_name (size_t_sub function_name.length 3) npos with
  | .error e, _ => .error e
  | .ok _, .error e => .error e
  | .ok head3, .ok tail3 =>
    if head3 != tail3 && ((head3 == "vec") == matrix.is_vector) then
      match (decode_function_map res).operator_index function_name with
      | .error e => .error e
      | .ok function => .ok (fun m => function matrix m)
    else
      match (decode_function_map res).operator_index function_name with
      | .error e => .error e
      | .ok function => .ok (fun m => function m matrix)

/-- Specification-side: the first three characters of a name. -/
def first_three (n : String) : List Char :=
  n.data.take 3

/-- Specification-side: the last three characters of a name. -/
def last_three (n : String) : List Char :=
  n.data.drop (n.data.length - 3)

/-- Specification-side: the seven recognised operation names. -/
def recognised_names : List String :=
  ["mat_mul_vec", "mat_mul_mat", "vec_mul_mat", "vec_add_vec", "mat_add_vec", "mat_add_mat",
    "vec_dot_vec"]

/-! ### Matrix.h: move construction and assignment between objects that may alias -/

namespace Matrix

variable {T : Type}

/-- Move constructor `Matrix(Matrix &&m)`: the pair of the new object and the new
`m`.  The members of `m` are taken over and `m` is reset. -/
def move_construct (m : Matrix T) : Matrix T × Matrix T :=
  ({ data := m.data, row_count := m.row_count, element_count := m.element_count }, m.reset)

end Matrix

/-- Matrix objects by address.  An assignment names its two operands by their
addresses, so that `this` and `m` may be one object. -/
abbrev Store (T : Type) : Type :=
  Nat → Matrix T

namespace Store

variable {T : Type}

/-- The store with the object at address `a` replaced. -/
def write (s : Store T) (a : Nat) (m : Matrix T) : Store T :=
  fun b => if b = a then m else s b

/-- Copy assignment `operator=(const Matrix &m)` on the objects at the addresses
`this` and `m`: nothing is done when `this == &m`; else the elements of `m` are
copied to new storage, `*this` is cleared and takes the dimensions of `m` and
the new storage. -/
def operator_assign_copy (s : Store T) (this m : Nat) : Store T × Except Exception Unit :=
  if this = m then (s, .ok ())
  else
    match detail.uninitialized_copy (s m).data (s m).size 0 with
    | .error e => (s, .error e)
    | .ok d =>
      (s.write this
        { data := d, row_count := (s m).row_count, element_count := (s m).element_count },
        .ok ())

/-- Move assignment `operator=(Matrix &&m)` on the objects at the addresses `this`
and `m`, statement by statement: `data = m.data; row_count = m.row_count;
element_count = m.element_count; m.reset();`.  There is no test of
`this == &m`. -/
def operator_assign_move (s : Store T) (this m : Nat) : Store T :=
  let s1 := s.write this { s this with data := (s m).data }
  let s2 := s1.write this { s1 this with row_count := (s1 m).row_count }
  let s3 := s2.write this { s2 this with element_count := (s2 m).element_count }
  s3.write m (s3 m).reset

end Store

/-! ### Matrix.h: the bulk constructors of `detail`, for elements whose construction may throw -/

namespace detail.rollback

/-- Raw storage as the bulk constructors see it: the addresses that hold a live
object, and the addresses on which `destroy` was called, in the order of the
calls. -/
structure Storage where
  live : List Nat
  destroyed : List Nat
  deriving DecidableEq, Repr

/-- The loop of `detail::destroy`: `for (; first != last; ++first) destroy(&*first)`,
at most `n` iterations; `none` when `last` is not reached. -/
def destroy_loop : Nat → Nat → Nat → Storage → Option Storage
  | 0, first, last, st => if first = last then some st else none
  | n + 1, first, last, st =>
    if first = last then some st
    else destroy_loop n (first + 1) last
      { live := st.live.erase first, destroyed := st.destroyed ++ [first] }

/-- Function `detail::destroy(first, last, a)` on iterators that are addresses.  The
loop ends only when increments lead from `first` to `last`, which takes
`last - first` iterations; from a `first` above `last` it runs off: `none`. -/
def destroy (first last : Nat) (st : Storage) : Option Storage :=
  destroy_loop (last - first) first last st

/-- The loop in the `try` block of `uninitialized_default_construct` and of
`uninitialized_fill`: `construct(a, &*current)` resp.
`construct(a, &*current, value)` for `current` up to `last`.  `construct p` is
the exception thrown by the construction at address `p`, if any.  The result is
the storage, the value of `current`, and the exception caught, if any. -/
def construct_loop (construct : Nat → Option Exception) :
    Nat → Nat → Nat → Storage → Option (Storage × Nat × Option Exception)
  | 0, current, last, st => if current = last then some (st, current, none) else none
  | n + 1, current, last, st =>
    if current = last then some (st, current, none)
    else
      match construct current with
      | some e => some (st, current, some e)
      | none => construct_loop construct n (current + 1) last
          { st with live := st.live ++ [current] }

/-- Function `detail::uninitialized_default_construct(first, last, a)`: on an exception,
`destroy(first, current, a)` and rethrow. -/
def uninitialized_default_construct (construct : Nat → Option Exception)
    (first last : Nat) (st : Storage) : Option (Storage × Except Exception Unit) :=
  match construct_loop construct (last - first) first last st with
  | none => none
  | some (st1, _, none) => some (st1, .ok ())
  | some (st1, current, some e) =>
    match destroy first current st1 with
    | none => none
    | some st2 => some (st2, .error e)

/-- Function `detail::uninitialized_fill(first, last, value, a)`: on an exception,
`destroy(first, current, a)` and rethrow.  `construct p` is the exception
thrown by the copy of `value` to address `p`, if any. -/
def uninitialized_fill (construct : Nat → Option Exception)
    (first last : Nat) (st : Storage) : Option (Storage × Except Exception Unit) :=
  match construct_loop construct (last - first) first last st with
  | none => none
  | some (st1, _, none) => some (st1, .ok ())
  | some (st1, current, some e) =>
    match destroy first current st1 with
    | none => none
    | some st2 => some (st2, .error e)

/-- The loop in the `try` block of `uninitialized_copy`:
`for (; first != last; ++first, ++current) construct(a, &*current, *first)`.
`construct p q` is the exception thrown by the copy of the object at `q` to
address `p`, if any.  The result is the storage, the values of `first` and
`current`, and the exception caught, if any. -/
def copy_loop (construct : Nat → Nat → Option Exception) :
    Nat → Nat → Nat → Nat → Storage → Option (Storage × Nat × Nat × Option Exception)
  | 0, first, last, current, st =>
    if first = last then some (st, first, current, none) else none
  | n + 1, first, last, current, st =>
    if first = last then some (st, first, current, none)
    else
      match construct current first with
      | some e => some (st, first, current, some e)
      | none => copy_loop construct n (first + 1) last (current + 1)
          { st with live := st.live ++ [current] }

/-- Function `detail::uninitialized_copy(first, last, d_first, a)`: on an exception,
`destroy(first, current, a)` and rethrow, where `first` is the source iterator
as the loop left it and `current` the destination iterator. -/
def uninitialized_copy (construct : Nat → Nat → Option Exception)
    (first last d_first : Nat) (st : Storage) : Option (Storage × Except Exception Unit) :=
  match copy_loop construct (last - first) first last d_first st with
  | none => none
  | some (st1, _, _, none) => some (st1, .ok ())
  | some (st1, first1, current, some e) =>
    match destroy first1 current st1 with
    | none => none
    | some st2 => some (st2, .error e)

end detail.rollback

/-! ### FunctionCompose.h -/

/-- Class `FunctionCompose<F1, F2>`: the two callables it inherits from, reached
through `inner_function1()` and `inner_function2()`. -/
structure FunctionCompose (F1 F2 : Type) where
  inner_function1 : F1
  inner_function2 : F2

/-- Member `operator()(Args &&... args)`, for one argument:
`std::invoke(inner_function1(), std::invoke(inner_function2(), args...))`. -/
def FunctionCompose.operator_call {A B C : Type} (self : FunctionCompose (B → C) (A → B))
    (args : A) : C :=
  self.inner_function1 (self.inner_function2 args)

/-- Function `compose(F1 &&f1, F2 &&f2)`. -/
def compose {F1 F2 : Type} (f1 : F1) (f2 : F2) : FunctionCompose F1 F2 :=
  { inner_function1 := f1, inner_function2 := f2 }

/-! ### Streams of the standard library -/

/-- Function `std::isspace` in the "C" locale: the space and the characters 9 to 13. -/
def isspace (c : Char) : Bool :=
  c.toNat == 32 || (decide (9 ≤ c.toNat) && decide (c.toNat ≤ 13))

/-- The part of a `std::istream` that the program observes: the characters not yet
read and the state bits `eofbit` and `failbit`. -/
structure istream where
  buf : List Char
  eofbit : Bool
  failbit : Bool
  deriving DecidableEq, Repr

namespace istream

/-- A stream opened on the text `s`: `std::istringstream ss(s)`, or a file stream
opened on a file with the content `s`. -/
def on_string (s : String) : istream :=
  { buf := s.data, eofbit := false, failbit := false }

/-- Member `good()`. -/
def good (is : istream) : Bool :=
  !is.eofbit && !is.failbit

/-- Member `eof()`. -/
def eof (is : istream) : Bool :=
  is.eofbit

/-- Member `fail()`; the conversion of a stream to `bool` is `!fail()`. -/
def fail (is : istream) : Bool :=
  is.failbit

/-- Formatted extraction `is >> str` of a `std::string`: the new `str` and the new
stream.  On a stream that is not good it sets `failbit` and leaves `str`; else
it skips white space, and at the end of the stream sets `eofbit` and `failbit`
and leaves `str`; else it reads the characters up to the next white space, and
sets `eofbit` when it reads up to the end of the stream. -/
def operator_extract (is : istream) (str : String) : String × istream :=
  if !is.good then (str, { is with failbit := true })
  else
    match is.buf.dropWhile isspace with
    | [] => (str, { buf := [], eofbit := true, failbit := true })
    | c :: cs =>
      (String.mk ((c :: cs).takeWhile (fun x => !isspace x)),
        { buf := (c :: cs).dropWhile (fun x => !isspace x)
          eofbit := ((c :: cs).dropWhile (fun x => !isspace x)).isEmpty
          failbit := false })

/-- Function `std::getline(is, str)`: the new `str` and the new stream.  On a stream
that is not good it sets `failbit` and leaves `str`; else it reads up to and
including the next newline, which it drops; it sets `eofbit` when it meets the
end of the stream instead, and also `failbit` when it then has read nothing. -/
def getline (is : istream) (str : String) : String × istream :=
  if !is.good then (str, { is with failbit := true })
  else
    match is.buf with
    | [] => ("", { buf := [], eofbit := true, failbit := true })
    | c :: cs =>
      match (c :: cs).dropWhile (fun x => x != '\n') with
      | [] =>
        (String.mk ((c :: cs).takeWhile (fun x => x != '\n')),
          { buf := [], eofbit := true, failbit := false })
      | _ :: rest =>
        (String.mk ((c :: cs).takeWhile (fun x => x != '\n')),
          { buf := rest, eofbit := false, failbit := false })

end istream

/-! ### main.cpp: reading matrices and building the pipeline -/

/-- The loop of `split`: `while (ss >> in) *outputIt++ = in;`, at most `n`
iterations; `out` is the container behind the output iterator. -/
def split_loop : Nat → istream → String → List String → List String
  | 0, _, _, out => out
  | n + 1, ss, in_str, out =>
    if (ss.operator_extract in_str).2.fail then out
    else split_loop n (ss.operator_extract in_str).2 (ss.operator_extract in_str).1
      (out ++ [(ss.operator_extract in_str).1])

/-- Function `split(s, outputIt)` with `outputIt` a `std::back_inserter` on `out`.
Each iteration but the last reads at least one character, so `s.length + 1`
iterations are enough. -/
def split (s : String) (out : List String) : List String :=
  split_loop (s.length + 1) (istream.on_string s) "" out

/-- The loop `while (std::getline(is, in))` of `read_matrix`, at most `n`
iterations: the rows read. -/
def read_matrix_rows : Nat → istream → String → Nat → List (List String) →
    Except Exception (List (List String))
  | 0, _, _, _, _ => .error .loop_bound
  | n + 1, is, in_str, element_count, tempSMatrix =>
    if (is.getline in_str).2.fail then .ok tempSMatrix
    else if (split (is.getline in_str).1 []).length != element_count then
      .error (.runtime_error "Wrong file format.")
    else read_matrix_rows n (is.getline in_str).2 (is.getline in_str).1 element_count
      (tempSMatrix ++ [split (is.getline in_str).1 []])

/-- The loop over `j` at the end of `read_matrix`:
`result(i, j) = std::stod(tempSMatrix[i][j])`. -/
def read_matrix_fill_cols {T : Type} (stod : String → Except Exception T)
    (tempSMatrix : List (List String)) (i : Nat) :
    Nat → Nat → Matrix T → Except Exception (Matrix T)
  | 0, _, result => .ok result
  | n + 1, j, result =>
    match tempSMatrix[i]? with
    | none => .error .buffer_overrun
    | some row =>
      match row[j]? with
      | none => .error .buffer_overrun
      | some tok =>
        match stod tok with
        | .error e => .error e
        | .ok v =>
          match result.operator_call_assign i j v with
          | .error e => .error e
          | .ok result1 => read_matrix_fill_cols stod tempSMatrix i n (j + 1) result1

/-- The loop over `i` at the end of `read_matrix`. -/
def read_matrix_fill_rows {T : Type} (stod : String → Except Exception T)
    (tempSMatrix : List (List String)) : Nat → Nat → Matrix T → Except Exception (Matrix T)
  | 0, _, result => .ok result
  | n + 1, i, result =>
    match read_matrix_fill_cols stod tempSMatrix i result.get_element_count 0 result with
    | .error e => .error e
    | .ok result1 => read_matrix_fill_rows stod tempSMatrix n (i + 1) result1

/-- Function `read_matrix(is)`.  `stod` stands for `std::stod`: the value of a
token, or the exception it throws.  Each `getline` but the last reads at least
one character, so the loop gets one iteration more than there are characters
left. -/
def read_matrix {T : Type} [Zero T] (stod : String → Except Exception T) (is : istream) :
    Except Exception (Matrix T) :=
  match read_matrix_rows ((is.getline "").2.buf.length + 1) (is.getline "").2 (is.getline "").1
      (split (is.getline "").1 []).length [split (is.getline "").1 []] with
  | .error e => .error e
  | .ok [] => .error (.runtime_error "Empty file.")
  | .ok (row0 :: rows) =>
    read_matrix_fill_rows stod (row0 :: rows)
      (Matrix.create (row0 :: rows).length row0.length : Matrix T).get_row_count 0
      (Matrix.create (row0 :: rows).length row0.length)

/-- Function `decode_function(is)`: the new stream and the step decoded, or the
exception.  `files` gives the content of the file of a name, `none` for a file
that cannot be opened. -/
def decode_function {T : Type} [Zero T] [Add T] [Mul T] (files : String → Option String)
    (stod : String → Except Exception T) (res : T) (is : istream) :
    istream × Except Exception (MatrixFunction T) :=
  let r1 := is.operator_extract ""
  let r2 := r1.2.operator_extract ""
  match files r2.1 with
  | none => (r2.2, .error (.runtime_error "Cannot open matrix_file"))
  | some content =>
    match read_matrix stod (istream.on_string content) with
    | .error e => (r2.2, .error e)
    | .ok matrix => (r2.2, decode_function_bind res r1.1 matrix)

/-- The loop `while (!is.eof()) res.push_back(decode_function(is));` of `config`, at
most `n` iterations; `pipe` is the local `res` of `config`. -/
def config_loop {T : Type} [Zero T] [Add T] [Mul T] (files : String → Option String)
    (stod : String → Except Exception T) (res : T) :
    Nat → istream → Pipe (MatrixFunction T) → Except Exception (Pipe (MatrixFunction T))
  | 0, is, pipe => if is.eof then .ok pipe else .error .loop_bound
  | n + 1, is, pipe =>
    if is.eof then .ok pipe
    else
      match decode_function files stod res is with
      | (_, .error e) => .error e
      | (is1, .ok f) => config_loop files stod res n is1 (pipe.push_back f)

/-- Function `config(is)`.  An iteration that neither throws nor reaches the end
of the stream reads at least one character, so the loop gets one iteration more
than there are characters left. -/
def config {T : Type} [Zero T] [Add T] [Mul T] (files : String → Option String)
    (stod : String → Except Exception T) (res : T) (is : istream) :
    Except Exception (Pipe (MatrixFunction T)) :=
  config_loop files stod res (is.buf.length + 1) is Pipe.create

/-- The value of a string of decimal digits. -/
def digits_value (ds : List Char) : Nat :=
  ds.foldl (fun acc c => 10 * acc + (c.toNat - 48)) 0

/-- An instance of `std::stod` for the element type `Int`, used to evaluate the
program on integer matrices: exact on a string of decimal digits with an
optional `-` in front; every other token is rejected. -/
def stod_digits (s : String) : Except Exception Int :=
  match s.data with
  | '-' :: ds =>
    if !ds.isEmpty && ds.all Char.isDigit then .ok (-(Int.ofNat (digits_value ds)))
    else .error .invalid_argument
  | ds =>
    if !ds.isEmpty && ds.all Char.isDigit then .ok (Int.ofNat (digits_value ds))
    else .error .invalid_argument

/-- Specification-side: one configuration line, `name`, a space, `source`. -/
def config_line (name source : String) : List Char :=
  name.data ++ ' ' :: source.data

/-- Specification-side: the text of a configuration of the given lines, each but
the last followed by a newline, and the last followed by `tail` (nothing, or a
newline). -/
def config_text : List (String × String) → List Char → List Char
  | [], tail => tail
  | [l], tail => config_line l.1 l.2 ++ tail
  | l :: l2 :: ls, tail => config_line l.1 l.2 ++ '\n' :: config_text (l2 :: ls) tail

/-- Specification-side: a token, a non-empty string without white space. -/
def is_token (s : String) : Prop :=
  s.data ≠ [] ∧ ∀ c ∈ s.data, isspace c = false

/-- An outcome that is an exception thrown by the program, not an access outside a
buffer and not the bound of a loop of the model. -/
def Exception.thrown (e : Exception) : Prop :=
  e ≠ .buffer_overrun ∧ e ≠ .loop_bound

/-- The files of the end-to-end examples: `operandFile.txt` holds `[[5,6],[7,8]]`,
`v.txt` holds the 1-by-3 matrix `[4,5,6]`, and no other file can be opened. -/
def example_files (name : String) : Option String :=
  if name = "operandFile.txt" then some "5 6\n7 8\n"
  else if name = "v.txt" then some "4 5 6"
  else none

/-- Specification-side: a configuration line that `decode_function` decodes without
an exception: its name is recognised, and its operand file opens and reads as a
matrix. -/
def line_decodes {T : Type} [Zero T] (files : String → Option String)
    (stod : String → Except Exception T) (l : String × String) : Prop :=
  l.1 ∈ recognised_names ∧
    ∃ content M, files l.2 = some content ∧
      read_matrix stod (istream.on_string content) = .ok M

/-- Specification-side: what follows a line in the text of a configuration: `tail`
after the last line, else a newline and the lines left. -/
def config_rest (ls : List (String × String)) (tail : List Char) : List Char :=
  match ls with
  | [] => tail
  | l2 :: ls2 => '\n' :: config_text (l2 :: ls2) tail

/-! ## Arithmetic in `size_type` -/

theorem size_t_mul_eq_mod (a b : Nat) : size_t_mul a b = (a * b) % 2 ^ 64 := by
  unfold size_t_mul
  split
  · rename_i h
    exact (Nat.mod_eq_of_lt h).symm
  · rfl

theorem size_t_mul_of_lt {a b : Nat} (h : a * b < 2 ^ 64) : size_t_mul a b = a * b := by
  unfold size_t_mul
  rw [if_pos h]

theorem size_t_add_eq_mod (a b : Nat) : size_t_add a b = (a + b) % 2 ^ 64 := by
  unfold size_t_add
  split
  · rename_i h
    exact (Nat.mod_eq_of_lt h).symm
  · rfl

theorem size_t_add_of_lt {a b : Nat} (h : a + b < 2 ^ 64) : size_t_add a b = a + b := by
  unfold size_t_add
  rw [if_pos h]

/-! ## Buffers -/

namespace detail

theorem uninitialized_default_construct_eq {T : Type} [Zero T] (n : Nat) :
    (uninitialized_default_construct n : List T) = List.replicate n 0 := by
  induction n with
  | zero => rfl
  | succ n ih => simp [uninitialized_default_construct, ih, List.replicate_succ]

theorem uninitialized_fill_eq {T : Type} (value : T) (n : Nat) :
    uninitialized_fill value n = List.replicate n value := by
  induction n with
  | zero => rfl
  | succ n ih => simp [uninitialized_fill, ih, List.replicate_succ]

theorem uninitialized_copy_eq {T : Type} (src : List T) :
    ∀ n first, first + n ≤ src.length →
      uninitialized_copy src n first = .ok ((src.drop first).take n) := by
  intro n
  induction n with
  | zero => intro first _; simp [uninitialized_copy]
  | succ n ih =>
    intro first h
    have hlt : first < src.length := by omega
    rw [List.drop_eq_getElem_cons hlt, List.take_succ_cons]
    simp only [uninitialized_copy, List.getElem?_eq_getElem hlt, ih (first + 1) (by omega)]

end detail

namespace Matrix

variable {T : Type}

theorem size_eq_of_wf (self : Matrix T) (hs : self.wf) : self.size = self.data.length := by
  obtain ⟨hs, hsb⟩ := hs
  rw [Nat.mul_comm] at hsb
  rw [size, size_t_mul_of_lt hsb, hs, Nat.mul_comm]

theorem index_eq {self : Matrix T} {i j : Nat} (h : i * self.element_count + j < 2 ^ 64) :
    self.index i j = i * self.element_count + j := by
  have h1 : i * self.element_count < 2 ^ 64 := by omega
  rw [index, size_t_mul_of_lt h1, size_t_add_of_lt h]

theorem copy_eq (m : Matrix T) (hm : m.wf) : copy m = .ok m := by
  obtain ⟨hm, hmb⟩ := hm
  have h := detail.uninitialized_copy_eq m.data (m.row_count * m.element_count) 0 (by omega)
  simp only [copy, size_t_mul_of_lt hmb, h, List.drop_zero]
  rw [← hm, List.take_length]

theorem operator_plus_eq_loop_spec [Add T] (m_data : List T) :
    ∀ n i data, i + n ≤ data.length → i + n ≤ m_data.length →
      ∃ d, operator_plus_eq_loop m_data n i data = (d, .ok ()) ∧ d.length = data.length ∧
        (∀ k, k < i ∨ i + n ≤ k → d[k]? = data[k]?) ∧
        (∀ k a b, i ≤ k → k < i + n → data[k]? = some a → m_data[k]? = some b →
          d[k]? = some (a + b)) := by
  intro n
  induction n with
  | zero =>
    intro i data _ _
    refine ⟨data, rfl, rfl, fun _ _ => rfl, ?_⟩
    intro k a b h1 h2
    omega
  | succ n ih =>
    intro i data h1 h2
    have hi : i < data.length := by omega
    have hi2 : i < m_data.length := by omega
    obtain ⟨d, hd, hlen, hframe, hval⟩ :=
      ih (i + 1) (data.set i (data[i] + m_data[i])) (by rw [List.length_set]; omega) (by omega)
    refine ⟨d, ?_, ?_, ?_, ?_⟩
    · simp only [operator_plus_eq_loop, List.getElem?_eq_getElem hi,
        List.getElem?_eq_getElem hi2, hd]
    · rw [hlen, List.length_set]
    · intro k hk
      have hne : i ≠ k := by omega
      rw [hframe k (by omega), List.getElem?_set_ne hne]
    · intro k a b hk1 hk2 ha hb
      by_cases hki : k = i
      · subst hki
        rw [List.getElem?_eq_getElem hi] at ha
        rw [List.getElem?_eq_getElem hi2] at hb
        cases ha
        cases hb
        rw [hframe k (by omega), List.getElem?_set_self hi]
      · have hne : i ≠ k := fun h => hki h.symm
        exact hval k a b (by omega) (by omega) (by rw [List.getElem?_set_ne hne]; exact ha) hb

theorem operator_plus_eq_spec [Add T] (self m : Matrix T) (hs : self.wf) (hm : m.wf)
    (hr : m.row_count = self.row_count) (hc : m.element_count = self.element_count) :
    self.operator_plus_eq m =
      ({ self with data := List.zipWith (fun a b => a + b) self.data m.data }, .ok ()) := by
  have hsz : self.size = self.data.length := size_eq_of_wf self hs
  obtain ⟨hs, _⟩ := hs
  obtain ⟨hm, _⟩ := hm
  have hlen : m.data.length = self.data.length := by rw [hs, hm, hr, hc]
  obtain ⟨d, hd, hdl, _, hval⟩ :=
    operator_plus_eq_loop_spec m.data self.size 0 self.data (by omega) (by omega)
  have hdz : d = List.zipWith (fun a b => a + b) self.data m.data := by
    apply List.ext_getElem?
    intro k
    by_cases hk : k < self.data.length
    · have hk2 : k < m.data.length := by omega
      rw [hval k self.data[k] m.data[k] (by omega) (by omega)
        (List.getElem?_eq_getElem hk) (List.getElem?_eq_getElem hk2)]
      rw [List.getElem?_zipWith, List.getElem?_eq_getElem hk, List.getElem?_eq_getElem hk2]
    · rw [List.getElem?_eq_none (by omega), List.getElem?_eq_none]
      rw [List.length_zipWith]
      omega
  simp only [operator_plus_eq, hr, hc, beq_self_eq_true, Bool.and_self, Bool.not_true,
    Bool.false_eq_true, if_false, hd, hdz]

theorem operator_mul_eq_scalar_loop_spec [Mul T] (value : T) :
    ∀ n i data, i + n ≤ data.length →
      ∃ d, operator_mul_eq_scalar_loop value n i data = (d, .ok ()) ∧
        d.length = data.length ∧
        (∀ k, k < i ∨ i + n ≤ k → d[k]? = data[k]?) ∧
        (∀ k a, i ≤ k → k < i + n → data[k]? = some a → d[k]? = some (a * value)) := by
  intro n
  induction n with
  | zero =>
    intro i data _
    refine ⟨data, rfl, rfl, fun _ _ => rfl, ?_⟩
    intro k a h1 h2
    omega
  | succ n ih =>
    intro i data h1
    have hi : i < data.length := by omega
    obtain ⟨d, hd, hlen, hframe, hval⟩ :=
      ih (i + 1) (data.set i (data[i] * value)) (by rw [List.length_set]; omega)
    refine ⟨d, ?_, ?_, ?_, ?_⟩
    · simp only [operator_mul_eq_scalar_loop, List.getElem?_eq_getElem hi, hd]
    · rw [hlen, List.length_set]
    · intro k hk
      have hne : i ≠ k := by omega
      rw [hframe k (by omega), List.getElem?_set_ne hne]
    · intro k a hk1 hk2 ha
      by_cases hki : k = i
      · subst hki
        rw [List.getElem?_eq_getElem hi] at ha
        cases ha
        rw [hframe k (by omega), List.getElem?_set_self hi]
      · have hne : i ≠ k := fun h => hki h.symm
        exact hval k a (by omega) (by omega) (by rw [List.getElem?_set_ne hne]; exact ha)

theorem operator_mul_eq_scalar_spec [Mul T] (self : Matrix T) (value : T) (hs : self.wf) :
    self.operator_mul_eq_scalar value =
      ({ self with data := self.data.map (fun a => a * value) }, .ok ()) := by
  have hsz : self.size = self.data.length := size_eq_of_wf self hs
  obtain ⟨d, hd, hdl, _, hval⟩ :=
    operator_mul_eq_scalar_loop_spec value self.size 0 self.data (by omega)
  have hdz : d = self.data.map (fun a => a * value) := by
    apply List.ext_getElem?
    intro k
    by_cases hk : k < self.data.length
    · rw [hval k self.data[k] (by omega) (by omega) (List.getElem?_eq_getElem hk)]
      rw [List.getElem?_map, List.getElem?_eq_getElem hk]
      rfl
    · rw [List.getElem?_eq_none (by omega), List.getElem?_eq_none]
      rw [List.length_map]
      omega
  simp only [operator_mul_eq_scalar, hd, hdz]

/-! ## The matrix product -/

theorem index_lt {i j r c : Nat} (hi : i < r) (hj : j < c) : i * c + j < r * c := by
  have h1 : (i + 1) * c ≤ r * c := Nat.mul_le_mul_right c hi
  have h2 : (i + 1) * c = i * c + c := Nat.succ_mul i c
  omega

theorem create_length [Zero T] (r c : Nat) :
    (create r c : Matrix T).data.length = size_t_mul r c := by
  simp only [create, detail.uninitialized_default_construct_eq, List.length_replicate]

theorem create_wf [Zero T] (r c : Nat) (hb : r * c < 2 ^ 64) : (create r c : Matrix T).wf := by
  unfold wf
  refine ⟨?_, hb⟩
  rw [create_length, size_t_mul_of_lt hb]
  rfl

theorem operator_call_error (self : Matrix T) (i j : Nat) (e : Exception)
    (h : self.operator_call i j = .error e) : e = .buffer_overrun := by
  unfold operator_call at h
  split at h
  · cases h
  · cases h
    rfl

theorem operator_mul_eq_inner_error [Add T] [Mul T] (self m : Matrix T) (i j : Nat)
    (e : Exception) :
    ∀ n r acc, operator_mul_eq_inner self m i j n r acc = .error e → e = .buffer_overrun := by
  intro n
  induction n with
  | zero =>
    intro r acc h
    cases h
  | succ n ih =>
    intro r acc h
    cases h1 : self.operator_call i r with
    | error e1 =>
      simp only [operator_mul_eq_inner, h1] at h
      cases h
      exact operator_call_error self i r e h1
    | ok a =>
      cases h2 : m.operator_call r j with
      | error e2 =>
        simp only [operator_mul_eq_inner, h1, h2] at h
        cases h
        exact operator_call_error m r j e h2
      | ok b =>
        simp only [operator_mul_eq_inner, h1, h2] at h
        exact ih _ _ h

theorem operator_call_assign_cases (result : Matrix T) (i j : Nat) (v : T) :
    (result.index i j < result.data.length ∧
        result.operator_call_assign i j v =
          .ok { result with data := result.data.set (result.index i j) v }) ∨
      (¬ result.index i j < result.data.length ∧
        result.operator_call_assign i j v = .error .buffer_overrun) := by
  by_cases h : result.index i j < result.data.length
  · left
    refine ⟨h, ?_⟩
    unfold operator_call_assign
    rw [if_pos h]
  · right
    refine ⟨h, ?_⟩
    unfold operator_call_assign
    rw [if_neg h]

theorem operator_mul_eq_cols_error [Zero T] [Add T] [Mul T] (self m : Matrix T) (i : Nat)
    (e : Exception) :
    ∀ n j (result : Matrix T), operator_mul_eq_cols self m i n j result = .error e →
      e = .buffer_overrun := by
  intro n
  induction n with
  | zero =>
    intro j result h
    cases h
  | succ n ih =>
    intro j result h
    cases h1 : operator_mul_eq_inner self m i j m.row_count 0 0 with
    | error e1 =>
      simp only [operator_mul_eq_cols, h1] at h
      cases h
      exact operator_mul_eq_inner_error self m i j e _ _ _ h1
    | ok v =>
      rcases operator_call_assign_cases result i j v with ⟨_, h2⟩ | ⟨_, h2⟩
      · simp only [operator_mul_eq_cols, h1, h2] at h
        exact ih _ _ h
      · simp only [operator_mul_eq_cols, h1, h2] at h
        cases h
        rfl

theorem operator_mul_eq_rows_error [Zero T] [Add T] [Mul T] (self m : Matrix T)
    (e : Exception) :
    ∀ n i (result : Matrix T), operator_mul_eq_rows self m n i result = .error e →
      e = .buffer_overrun := by
  intro n
  induction n with
  | zero =>
    intro i result h
    cases h
  | succ n ih =>
    intro i result h
    cases h1 : operator_mul_eq_cols self m i result.element_count 0 result with
    | error e1 =>
      simp only [operator_mul_eq_rows, h1] at h
      cases h
      exact operator_mul_eq_cols_error self m i e _ _ _ h1
    | ok result1 =>
      simp only [operator_mul_eq_rows, h1] at h
      exact ih _ _ h

/-- With matching dimensions matrix `*=` does not end in an exception of the
program: it succeeds or it leaves its buffer. -/
theorem operator_mul_eq_error [Zero T] [Add T] [Mul T] (self m : Matrix T) (e : Exception)
    (hdim : self.element_count = m.row_count) (h : (self.operator_mul_eq m).2 = .error e) :
    e = .buffer_overrun := by
  have hne : (self.element_count != m.row_count) = false := by simp [hdim]
  cases h1 : operator_mul_eq_rows self m
      (create self.row_count m.element_count : Matrix T).row_count 0
      (create self.row_count m.element_count) with
  | error e1 =>
    simp only [operator_mul_eq, hne, Bool.false_eq_true, if_false, h1] at h
    cases h
    exact operator_mul_eq_rows_error self m e _ _ _ h1
  | ok result1 =>
    simp only [operator_mul_eq, hne, Bool.false_eq_true, if_false, h1] at h
    cases h

theorem operator_mul_eq_cols_in_bounds [Zero T] [Add T] [Mul T] (self m : Matrix T) (i : Nat) :
    ∀ n j (result res : Matrix T), operator_mul_eq_cols self m i n j result = .ok res →
      res.data.length = result.data.length ∧ res.element_count = result.element_count ∧
      res.row_count = result.row_count ∧
      ∀ jj, j ≤ jj → jj < j + n → result.index i jj < result.data.length := by
  intro n
  induction n with
  | zero =>
    intro j result res h
    cases h
    refine ⟨rfl, rfl, rfl, ?_⟩
    intro jj h1 h2
    omega
  | succ n ih =>
    intro j result res h
    cases h1 : operator_mul_eq_inner self m i j m.row_count 0 0 with
    | error e1 =>
      simp only [operator_mul_eq_cols, h1] at h
      cases h
    | ok v =>
      rcases operator_call_assign_cases result i j v with ⟨hlt, h2⟩ | ⟨_, h2⟩
      · simp only [operator_mul_eq_cols, h1, h2] at h
        obtain ⟨hl, he, hr, hb⟩ := ih _ _ _ h
        refine ⟨by rw [hl, List.length_set], he, hr, ?_⟩
        intro jj hj1 hj2
        by_cases hjj : jj = j
        · rw [hjj]
          exact hlt
        · have := hb jj (by omega) (by omega)
          simp only [index, List.length_set] at this
          exact this
      · simp only [operator_mul_eq_cols, h1, h2] at h
        cases h

theorem operator_mul_eq_rows_in_bounds [Zero T] [Add T] [Mul T] (self m : Matrix T) :
    ∀ n i (result res : Matrix T), operator_mul_eq_rows self m n i result = .ok res →
      res.data.length = result.data.length ∧ res.element_count = result.element_count ∧
      res.row_count = result.row_count ∧
      ∀ ii jj, i ≤ ii → ii < i + n → jj < result.element_count →
        result.index ii jj < result.data.length := by
  intro n
  induction n with
  | zero =>
    intro i result res h
    cases h
    refine ⟨rfl, rfl, rfl, ?_⟩
    intro ii jj h1 h2
    omega
  | succ n ih =>
    intro i result res h
    cases h1 : operator_mul_eq_cols self m i result.element_count 0 result with
    | error e1 =>
      simp only [operator_mul_eq_rows, h1] at h
      cases h
    | ok result1 =>
      simp only [operator_mul_eq_rows, h1] at h
      obtain ⟨hl1, he1, hrc1, hb1⟩ := operator_mul_eq_cols_in_bounds self m i _ _ _ _ h1
      obtain ⟨hl, he, hr, hb⟩ := ih _ _ _ h
      refine ⟨by rw [hl, hl1], by rw [he, he1], by rw [hr, hrc1], ?_⟩
      intro ii jj hi1 hi2 hj
      by_cases hii : ii = i
      · rw [hii]
        exact hb1 jj (by omega) (by omega)
      · have := hb ii jj (by omega) (by omega) (by rw [he1]; exact hj)
        simp only [index, he1, hl1] at this
        exact this

/-- A matrix `*=` that succeeds had a result within `size_type`: when
`row_count * m.element_count` is `2 ^ 64` or more, the buffer of `result` holds
fewer elements than the loops write, and the write at the first index past its
end is reached. -/
theorem operator_mul_eq_fit [Zero T] [Add T] [Mul T] (self m R : Matrix T)
    (h : self.operator_mul_eq m = (R, .ok ())) :
    self.row_count * m.element_count < 2 ^ 64 ∧ R.row_count = self.row_count ∧
      R.element_count = m.element_count ∧
      R.data.length = self.row_count * m.element_count := by
  by_cases hd : self.element_count = m.row_count
  · have hne : (self.element_count != m.row_count) = false := by simp [hd]
    cases h1 : operator_mul_eq_rows self m
        (create self.row_count m.element_count : Matrix T).row_count 0
        (create self.row_count m.element_count) with
    | error e1 =>
      simp only [operator_mul_eq, hne, Bool.false_eq_true, if_false, h1] at h
      cases congrArg Prod.snd h
    | ok result1 =>
      simp only [operator_mul_eq, hne, Bool.false_eq_true, if_false, h1, move_assign] at h
      have hR : R = ⟨result1.data, result1.row_count, result1.element_count⟩ :=
        (congrArg Prod.fst h).symm
      obtain ⟨hl, he, hr, hb⟩ := operator_mul_eq_rows_in_bounds self m _ _ _ _ h1
      have hce : (create self.row_count m.element_count : Matrix T).element_count
          = m.element_count := rfl
      have hcr : (create self.row_count m.element_count : Matrix T).row_count
          = self.row_count := rfl
      rw [create_length] at hl hb
      rw [hce] at he hb
      rw [hcr] at hr hb
      have hfit : self.row_count * m.element_count < 2 ^ 64 := by
        by_contra hn
        have hsz : size_t_mul self.row_count m.element_count < 2 ^ 64 := by
          rw [size_t_mul_eq_mod]
          exact Nat.mod_lt _ (Nat.two_pow_pos 64)
        have hkpos : 0 < m.element_count := by
          rcases Nat.eq_zero_or_pos m.element_count with h0 | h0
          · rw [h0, Nat.mul_zero] at hn
            exact absurd (Nat.two_pow_pos 64) hn
          · exact h0
        have hlt : size_t_mul self.row_count m.element_count
            < self.row_count * m.element_count := by omega
        have hii : size_t_mul self.row_count m.element_count / m.element_count
            < self.row_count := by
          rw [Nat.div_lt_iff_lt_mul hkpos]
          exact hlt
        have hjj : size_t_mul self.row_count m.element_count % m.element_count
            < m.element_count := Nat.mod_lt _ hkpos
        have hsplit : size_t_mul self.row_count m.element_count / m.element_count
              * m.element_count
            + size_t_mul self.row_count m.element_count % m.element_count
            = size_t_mul self.row_count m.element_count := Nat.div_add_mod' _ _
        have hidx := hb (size_t_mul self.row_count m.element_count / m.element_count)
          (size_t_mul self.row_count m.element_count % m.element_count) (Nat.zero_le _)
          (by rw [Nat.zero_add]; exact hii) hjj
        rw [index_eq (by rw [hce, hsplit]; exact hsz), hce, hsplit] at hidx
        exact Nat.lt_irrefl _ hidx
      refine ⟨hfit, ?_, ?_, ?_⟩
      · rw [hR]
        exact hr
      · rw [hR]
        exact he
      · rw [hR]
        show result1.data.length = _
        rw [hl, size_t_mul_of_lt hfit]
  · have hc : (self.element_count != m.row_count) = true := by simpa using hd
    simp only [operator_mul_eq, hc, if_true] at h
    cases congrArg Prod.snd h

end Matrix

/-! ## The dot product -/

namespace Matrix

variable {T : Type}

theorem dot_loop_spec [Semiring T] (data rhs_data : List T) :
    ∀ n i res, i + n ≤ data.length → i + n ≤ rhs_data.length →
      dot_loop data rhs_data n i res =
        .ok (res + ∑ t in Finset.range n, data.getD (i + t) 0 * rhs_data.getD (i + t) 0) := by
  intro n
  induction n with
  | zero =>
    intro i res _ _
    simp only [dot_loop, Finset.range_zero, Finset.sum_empty, add_zero]
  | succ n ih =>
    intro i res h1 h2
    have hi : i < data.length := by omega
    have hi2 : i < rhs_data.length := by omega
    simp only [dot_loop, List.getElem?_eq_getElem hi, List.getElem?_eq_getElem hi2]
    rw [ih (i + 1) _ (by omega) (by omega), Finset.sum_range_succ', add_assoc]
    congr 2
    rw [add_comm]
    congr 1
    · apply Finset.sum_congr rfl
      intro t _
      rw [show i + 1 + t = i + (t + 1) by omega]
    · simp only [List.getD_eq_getElem?_getD, Nat.add_zero, List.getElem?_eq_getElem hi,
        List.getElem?_eq_getElem hi2, Option.getD_some]

theorem dot_loop_comm [Add T] [CommMagma T] (data rhs_data : List T) :
    ∀ n i res, dot_loop data rhs_data n i res = dot_loop rhs_data data n i res := by
  intro n
  induction n with
  | zero => intro i res; rfl
  | succ n ih =>
    intro i res
    cases h1 : data[i]? with
    | none =>
      cases h2 : rhs_data[i]? <;> simp only [dot_loop, h1, h2]
    | some a =>
      cases h2 : rhs_data[i]? with
      | none => simp only [dot_loop, h1, h2]
      | some b => simp only [dot_loop, h1, h2, ih, mul_comm a b]

/-- From one and the same start of the accumulator, `dot` is symmetric whenever
the multiplication of the elements is commutative. -/
theorem dot_comm_of_same_start [Add T] [CommMagma T] (res : T) (A B : Matrix T) :
    A.dot res B = B.dot res A := by
  by_cases h : A.element_count = B.element_count ∧ A.row_count = B.row_count
  · obtain ⟨h1, h2⟩ := h
    simp only [dot, get_element_count, get_row_count, size, h1, h2, dot_loop_comm A.data B.data]
  · have hA : (A.element_count == B.element_count && A.row_count == B.row_count) = false := by
      simpa using h
    have hB : (B.element_count == A.element_count && B.row_count == A.row_count) = false := by
      simp only [Bool.and_eq_false_iff, beq_eq_false_iff_ne, ne_eq]
      by_cases h1 : A.element_count = B.element_count
      · right
        intro h2
        exact h ⟨h1, h2.symm⟩
      · left
        intro h2
        exact h1 h2.symm
    simp only [dot, get_element_count, get_row_count, hA, hB, Bool.not_false, if_true]

theorem dot_spec [Semiring T] (res : T) (A B : Matrix T) (hA : A.wf) (hB : B.wf)
    (hr : A.row_count = B.row_count) (hc : A.element_count = B.element_count)
    (hv : A.row_count = 1 ∨ A.element_count = 1) :
    A.dot res B =
      .ok (res + ∑ i in Finset.range A.data.length, A.data.getD i 0 * B.data.getD i 0) := by
  have hsz : A.size = A.data.length := size_eq_of_wf A hA
  obtain ⟨hA, _⟩ := hA
  obtain ⟨hB, _⟩ := hB
  have hlen : B.data.length = A.data.length := by rw [hA, hB, hr, hc]
  have h1 : (A.element_count == B.element_count && A.row_count == B.row_count) = true := by
    simp [hr, hc]
  have h2 : (A.row_count != 1 && A.element_count != 1) = false := by
    rcases hv with h | h <;> simp [h]
  simp only [dot, get_element_count, get_row_count, h1, h2, Bool.not_true, Bool.false_eq_true,
    if_false, hsz]
  rw [dot_loop_spec A.data B.data A.data.length 0 res (by omega) (by omega)]
  simp only [Nat.zero_add]

end Matrix

/-! ## The directory and the pipe -/

namespace FlatMap

variable {KeyType ValueType : Type}

theorem operator_index_loop_eq [DecidableEq KeyType]
    (init_arr : List (KeyType × ValueType)) (h : init_arr.length ≤ MaxKeyPairs)
    (key : KeyType) :
    ∀ n i, i + n = init_arr.length →
      operator_index_loop (create init_arr h) key n i =
        match (init_arr.drop i).find? (fun p => decide (key = p.1)) with
        | some p => .ok p.2
        | none => .error (.runtime_error "value is not found") := by
  intro n
  induction n with
  | zero =>
    intro i hi
    have : init_arr.drop i = [] := List.drop_eq_nil_of_le (by omega)
    simp only [operator_index_loop, this, List.find?_nil]
  | succ n ih =>
    intro i hi
    have hlt : i < init_arr.length := by omega
    have hk : (create init_arr h).keys[i]? = some (init_arr[i]).1 := by
      simp only [create, List.getElem?_map, List.getElem?_eq_getElem hlt, Option.map_some']
    have hv : (create init_arr h).values[i]? = some (init_arr[i]).2 := by
      simp only [create, List.getElem?_map, List.getElem?_eq_getElem hlt, Option.map_some']
    rw [List.drop_eq_getElem_cons hlt, List.find?_cons]
    simp only [operator_index_loop, hk, hv]
    by_cases hkey : key = (init_arr[i]).1
    · simp only [hkey, if_true, decide_True]
    · simp only [hkey, if_false, decide_False]
      exact ih (i + 1) (by omega)

theorem operator_index_eq [DecidableEq KeyType]
    (init_arr : List (KeyType × ValueType)) (h : init_arr.length ≤ MaxKeyPairs)
    (key : KeyType) :
    (create init_arr h).operator_index key =
      match init_arr.find? (fun p => decide (key = p.1)) with
      | some p => .ok p.2
      | none => .error (.runtime_error "value is not found") := by
  have := operator_index_loop_eq init_arr h key init_arr.length 0 (by omega)
  simpa only [List.drop_zero] using this

end FlatMap

namespace Pipe

theorem operator_call_loop_eq {A : Type} (function_objects : List (A → Except Exception A)) :
    ∀ n i temp, i + n = function_objects.length →
      operator_call_loop function_objects n i temp =
        (function_objects.drop i).foldlM (fun x op => op x) temp := by
  intro n
  induction n with
  | zero =>
    intro i temp hi
    have : function_objects.drop i = [] := List.drop_eq_nil_of_le (by omega)
    simp only [operator_call_loop, this, List.foldlM_nil]
    rfl
  | succ n ih =>
    intro i temp hi
    have hlt : i < function_objects.length := by omega
    rw [List.drop_eq_getElem_cons hlt, List.foldlM_cons]
    simp only [operator_call_loop, List.getElem?_eq_getElem hlt]
    cases hf : function_objects[i] temp with
    | error e => rfl
    | ok temp1 =>
      simp only [ih (i + 1) temp1 (by omega)]
      rfl

theorem operator_call_eq {A : Type} (self : Pipe (A → Except Exception A)) (value : A) :
    self.operator_call value = self.function_objects.foldlM (fun x op => op x) value := by
  have := operator_call_loop_eq self.function_objects self.function_objects.length 0 value
    (by omega)
  simpa only [List.drop_zero] using this

end Pipe

theorem decode_function_map_not_found {T : Type} [Zero T] [Add T] [Mul T] (res : T)
    (s : String) (hs : s ∉ recognised_names) :
    (decode_function_map res).operator_index s =
      .error (.runtime_error "value is not found") := by
  simp only [recognised_names, List.mem_cons, List.mem_singleton, List.not_mem_nil, or_false,
    not_or] at hs
  obtain ⟨h1, h2, h3, h4, h5, h6, h7⟩ := hs
  simp only [decode_function_map, FlatMap.operator_index_eq, decode_function_init_arr,
    List.find?_cons, h1, h2, h3, h4, h5, h6, h7, decide_False, List.find?_nil]

theorem decode_function_map_found {T : Type} [Zero T] [Add T] [Mul T] (res : T)
    (s : String) (f : Matrix T → Matrix T → Except Exception (Matrix T))
    (hf : (decode_function_map res).operator_index s = .ok f) : s ∈ recognised_names := by
  by_contra hs
  rw [decode_function_map_not_found res s hs] at hf
  cases hf

theorem substr_head (n : String) : substr n 0 3 = .ok ⟨first_three n⟩ := by
  simp only [substr, first_three, gt_iff_lt, Nat.not_lt_zero, if_false, List.drop_zero]

theorem size_t_sub_eq_mod (a b : Nat) (ha : a < 2 ^ 64) (hb : b < 2 ^ 64) :
    size_t_sub a b = (a + 2 ^ 64 - b) % 2 ^ 64 := by
  unfold size_t_sub
  split <;> omega

theorem substr_tail (n : String) (h3 : 3 ≤ n.length) :
    substr n (size_t_sub n.length 3) npos = .ok ⟨last_three n⟩ := by
  have e : size_t_sub n.length 3 = n.length - 3 := by
    unfold size_t_sub
    rw [if_pos h3]
  have hl : n.length = n.data.length := rfl
  rw [e]
  unfold substr
  rw [if_neg (by omega)]
  unfold last_three
  rw [List.take_of_length_le, hl]
  rw [List.length_drop]
  unfold npos
  omega

theorem decode_function_bind_eq {T : Type} [Zero T] [Add T] [Mul T] (res : T) (n : String)
    (M : Matrix T) (h3 : 3 ≤ n.length) :
    decode_function_bind res n M =
      match (decode_function_map res).operator_index n with
      | .error e => .error e
      | .ok f =>
        .ok (if first_three n ≠ last_three n ∧
              decide (first_three n = ['v', 'e', 'c']) = M.is_vector
            then fun x => f M x else fun x => f x M) := by
  have hne : ((⟨first_three n⟩ : String) != ⟨last_three n⟩) = true
      ↔ first_three n ≠ last_three n := by
    rw [bne_iff_ne]
    constructor
    · intro h hc
      exact h (congrArg String.mk hc)
    · intro h hc
      exact h (congrArg String.data hc)
  have hvec : ((⟨first_three n⟩ : String) == "vec") = decide (first_three n = ['v', 'e', 'c']) := by
    by_cases h : first_three n = ['v', 'e', 'c']
    · rw [h]; rfl
    · rw [decide_eq_false h, beq_eq_false_iff_ne]
      intro hc
      exact h (congrArg String.data hc)
  unfold decode_function_bind
  rw [substr_head n, substr_tail n h3]
  simp only []
  rw [hvec]
  cases hf : (decode_function_map res).operator_index n with
  | error e => simp only [ite_self]
  | ok f =>
    by_cases hc : first_three n ≠ last_three n ∧
        decide (first_three n = ['v', 'e', 'c']) = M.is_vector
    · have hb : ((⟨first_three n⟩ : String) != ⟨last_three n⟩ &&
          (decide (first_three n = ['v', 'e', 'c']) == M.is_vector)) = true := by
        rw [Bool.and_eq_true, hne, beq_iff_eq]
        exact hc
      rw [if_pos hb]
      simp only [if_pos hc]
    · have hb : ¬ ((⟨first_three n⟩ : String) != ⟨last_three n⟩ &&
          (decide (first_three n = ['v', 'e', 'c']) == M.is_vector)) = true := by
        rw [Bool.and_eq_true, hne, beq_iff_eq]
        exact hc
      rw [if_neg hb]
      simp only [if_neg hc]

theorem decode_function_bind_short {T : Type} [Zero T] [Add T] [Mul T] (res : T) (n : String)
    (M : Matrix T) (h3 : n.length < 3) :
    decode_function_bind res n M = .error .out_of_range := by
  have e : size_t_sub n.length 3 > n.length := by
    unfold size_t_sub
    rw [if_neg (by omega)]
    omega
  unfold decode_function_bind
  rw [substr_head n]
  unfold substr
  rw [if_pos e]

/-! ## Matrices as tables of entries -/

namespace Matrix

variable {T : Type}

theorem matrix_add_eq [Add T] (lhs rhs : Matrix T) (h : lhs.wf) :
    matrix_add lhs rhs = value_after (lhs.operator_plus_eq rhs) := by
  simp only [matrix_add, copy_eq lhs h]

end Matrix

namespace Matrix

variable {T : Type}

theorem zipWith_add_neg_cancel [Ring T] :
    ∀ l1 l2 : List T, l1.length = l2.length →
      List.zipWith (fun a b => a + b) (List.zipWith (fun a b => a + b) l1 l2)
        (l2.map (fun a => a * -1)) = l1 := by
  intro l1
  induction l1 with
  | nil => intro l2 _; rfl
  | cons a l1 ih =>
    intro l2 h
    cases l2 with
    | nil => cases h
    | cons b l2 =>
      simp only [List.length_cons, Nat.add_right_cancel_iff] at h
      rw [List.zipWith_cons_cons, List.map_cons, List.zipWith_cons_cons, ih l2 h, mul_neg,
        mul_one, add_neg_cancel_right]

end Matrix

/-! ## The claims -/

/-- C2: for well-formed `A` and `B` with the same row count and the same column
count, `A += B` succeeds, keeps the dimensions of `A`, and the buffer of `A`
holds at every index `i` the old `A[i] + B[i]`; `matrix_add A B` returns that
matrix.  `B` is a const reference, of which the call returns no new state. -/
theorem C2_operator_plus_eq_elementwise {T : Type} [Add T] (A B : Matrix T)
    (hA : A.wf) (hB : B.wf) (hr : A.row_count = B.row_count)
    (hc : A.element_count = B.element_count) :
    ∃ R : Matrix T, A.operator_plus_eq B = (R, .ok ()) ∧ matrix_add A B = .ok R ∧
      R.row_count = A.row_count ∧ R.element_count = A.element_count ∧
      R.data.length = A.row_count * A.element_count ∧
      (∀ (i : Nat) (a b : T), A.data[i]? = some a → B.data[i]? = some b →
        R.data[i]? = some (a + b)) := by
  have h := Matrix.operator_plus_eq_spec A B hA hB hr.symm hc.symm
  refine ⟨_, h, ?_, rfl, rfl, ?_, ?_⟩
  · rw [Matrix.matrix_add_eq A B hA, h]
    rfl
  · simp only [List.length_zipWith, hA.1, hB.1, hr, hc, Nat.min_self]
  · intro i a b ha hb
    simp only [List.getElem?_zipWith, ha, hb]

/-- C2 at `[[1,2],[3,4]] += [[5,6],[7,8]]`. -/
theorem C2_witness :
    ((⟨[1, 2, 3, 4], 2, 2⟩ : Matrix Int).wf ∧ (⟨[5, 6, 7, 8], 2, 2⟩ : Matrix Int).wf) ∧
      ∃ R : Matrix Int,
        Matrix.operator_plus_eq ⟨[1, 2, 3, 4], 2, 2⟩ ⟨[5, 6, 7, 8], 2, 2⟩ = (R, .ok ()) ∧
        R.data[3]? = some (4 + 8) := by
  obtain ⟨R, h1, _, _, _, _, h2⟩ :=
    C2_operator_plus_eq_elementwise (⟨[1, 2, 3, 4], 2, 2⟩ : Matrix Int) ⟨[5, 6, 7, 8], 2, 2⟩
      (by decide) (by decide) rfl rfl
  exact ⟨⟨by decide, by decide⟩, R, h1, h2 3 4 8 rfl rfl⟩

/-- C3: for well-formed `A` and `B`, `A += B` ends in the size-mismatch exception
exactly when the row counts or the column counts differ, matrix `A *= B` exactly
when the column count of `A` differs from the row count of `B`, and in each
failing call the state of `A` after the call is its state before. -/
theorem C3_size_mismatch_exactly_and_unmodified {T : Type} [Semiring T] (A B : Matrix T)
    (hA : A.wf) (hB : B.wf) :
    ((A.operator_plus_eq B).2 = .error (.MatrixException "Matrix size mismatch") ↔
        (A.row_count ≠ B.row_count ∨ A.element_count ≠ B.element_count)) ∧
      ((A.operator_mul_eq B).2 = .error (.MatrixException "Matrix size mismatch") ↔
        A.element_count ≠ B.row_count) ∧
      ((A.row_count ≠ B.row_count ∨ A.element_count ≠ B.element_count) →
        (A.operator_plus_eq B).1 = A) ∧
      (A.element_count ≠ B.row_count → (A.operator_mul_eq B).1 = A) := by
  have hplus : (A.row_count ≠ B.row_count ∨ A.element_count ≠ B.element_count) →
      A.operator_plus_eq B = (A, .error (.MatrixException "Matrix size mismatch")) := by
    intro h
    have hc : (B.element_count == A.element_count && B.row_count == A.row_count) = false := by
      simp only [Bool.and_eq_false_iff, beq_eq_false_iff_ne, ne_eq]
      rcases h with h | h
      · right
        exact fun e => h e.symm
      · left
        exact fun e => h e.symm
    simp only [Matrix.operator_plus_eq, hc, Bool.not_false, if_true]
  have hmul : A.element_count ≠ B.row_count →
      A.operator_mul_eq B = (A, .error (.MatrixException "Matrix size mismatch")) := by
    intro h
    have hc : (A.element_count != B.row_count) = true := by simpa using h
    simp only [Matrix.operator_mul_eq, hc, if_true]
  refine ⟨⟨?_, fun h => by rw [hplus h]⟩, ⟨?_, fun h => by rw [hmul h]⟩,
    fun h => by rw [hplus h], fun h => by rw [hmul h]⟩
  · intro h
    by_contra hn
    have hr : A.row_count = B.row_count := by
      by_contra h1
      exact hn (Or.inl h1)
    have hc : A.element_count = B.element_count := by
      by_contra h1
      exact hn (Or.inr h1)
    rw [Matrix.operator_plus_eq_spec A B hA hB hr.symm hc.symm] at h
    cases h
  · intro h hdim
    cases Matrix.operator_mul_eq_error A B _ hdim h

/-- C3 at a 2-by-2 left operand and a 1-by-3 right operand: both calls fail and
leave the left operand as it was. -/
theorem C3_witness :
    ((⟨[1, 2, 3, 4], 2, 2⟩ : Matrix Int).wf ∧ (⟨[5, 6, 7], 1, 3⟩ : Matrix Int).wf) ∧
      Matrix.operator_plus_eq (⟨[1, 2, 3, 4], 2, 2⟩ : Matrix Int) ⟨[5, 6, 7], 1, 3⟩ =
        (⟨[1, 2, 3, 4], 2, 2⟩, .error (.MatrixException "Matrix size mismatch")) ∧
      Matrix.operator_mul_eq (⟨[1, 2, 3, 4], 2, 2⟩ : Matrix Int) ⟨[5, 6, 7], 1, 3⟩ =
        (⟨[1, 2, 3, 4], 2, 2⟩, .error (.MatrixException "Matrix size mismatch")) := by
  obtain ⟨h1, h2, h3, h4⟩ :=
    C3_size_mismatch_exactly_and_unmodified (⟨[1, 2, 3, 4], 2, 2⟩ : Matrix Int)
      ⟨[5, 6, 7], 1, 3⟩ (by decide) (by decide)
  exact ⟨⟨by decide, by decide⟩, Prod.ext (h3 (by decide)) (h1.mpr (by decide)),
    Prod.ext (h4 (by decide)) (h2.mpr (by decide))⟩

/-- C4, at the failing input: on the 1-by-3 vectors `[1,2,3]` and `[4,5,6]` the
sum of the products is 32, and `dot` returns 32 only when its accumulator
happens to start from 0; started from 7 it returns 39, and on the empty 1-by-0
vector it returns the start value itself instead of 0. -/
theorem C4_dot_accumulates_from_indeterminate :
    Matrix.dot (0 : Int) ⟨[1, 2, 3], 1, 3⟩ ⟨[4, 5, 6], 1, 3⟩ = .ok 32 ∧
      Matrix.dot (7 : Int) ⟨[1, 2, 3], 1, 3⟩ ⟨[4, 5, 6], 1, 3⟩ = .ok 39 ∧
      Matrix.dot (7 : Int) ⟨[], 1, 0⟩ ⟨[], 1, 0⟩ = .ok 7 :=
  ⟨rfl, rfl, rfl⟩

/-- C5: a Pipe holds its operations in insertion order, and applying it to `x0`
is the left fold of the operations over `x0`, stopping at the first operation
that throws; for operations that never throw the result is
`opN (... (op1 x0))`, and for the empty Pipe it is `x0`. -/
theorem C5_pipe_is_left_fold {A : Type} (ops : List (A → Except Exception A))
    (fs : List (A → A)) (p : Pipe (A → Except Exception A)) (f : A → Except Exception A)
    (x0 : A) :
    (ops.foldl Pipe.push_back Pipe.create).function_objects = ops ∧
      (p.push_back f).function_objects = p.function_objects ++ [f] ∧
      p.operator_call x0 = p.function_objects.foldlM (fun x op => op x) x0 ∧
      (Pipe.mk (fs.map (fun g x => Except.ok (g x)))).operator_call x0 =
        .ok (fs.foldl (fun x g => g x) x0) ∧
      (Pipe.create : Pipe (A → Except Exception A)).operator_call x0 = .ok x0 := by
  refine ⟨?_, rfl, Pipe.operator_call_eq p x0, ?_, rfl⟩
  · have key : ∀ (l : List (A → Except Exception A)) (q : Pipe (A → Except Exception A)),
        (l.foldl Pipe.push_back q).function_objects = q.function_objects ++ l := by
      intro l
      induction l with
      | nil => intro q; simp only [List.foldl_nil, List.append_nil]
      | cons a l ih =>
        intro q
        rw [List.foldl_cons, ih]
        simp only [Pipe.push_back, List.append_assoc, List.singleton_append]
    rw [key ops Pipe.create]
    rfl
  · rw [Pipe.operator_call_eq]
    simp only
    induction fs generalizing x0 with
    | nil => rfl
    | cons g fs ih =>
      rw [List.map_cons, List.foldlM_cons, List.foldl_cons]
      exact ih (g x0)

/-- C6: for a name `n` that the directory resolves to `f` and an operand `M`, the
step built by the end of `decode_function` maps `x` to `f(M, x)` when the first
three characters of `n` differ from its last three and
`(first three == "vec") == M.is_vector()`, and to `f(x, M)` in every other
case. -/
theorem C6_operand_order {T : Type} [Zero T] [Add T] [Mul T] (res : T) (n : String)
    (f : Matrix T → Matrix T → Except Exception (Matrix T)) (M : Matrix T)
    (hf : (decode_function_map res).operator_index n = .ok f) :
    decode_function_bind res n M =
      .ok (if first_three n ≠ last_three n ∧
            decide (first_three n = ['v', 'e', 'c']) = M.is_vector
          then fun x => f M x else fun x => f x M) := by
  have hn := decode_function_map_found res n f hf
  have h3 : 3 ≤ n.length := by
    simp only [recognised_names, List.mem_cons, List.mem_singleton, List.not_mem_nil,
      or_false] at hn
    rcases hn with h | h | h | h | h | h | h <;> subst h <;> decide
  rw [decode_function_bind_eq res n M h3, hf]

/-- C6 at `mat_mul_vec` with a 2-by-2 operand, which is not a vector: the operand
is bound first. -/
theorem C6_witness :
    (decode_function_map (0 : Int)).operator_index "mat_mul_vec" = .ok matrix_mul ∧
      decode_function_bind (0 : Int) "mat_mul_vec" ⟨[1, 2, 3, 4], 2, 2⟩ =
        .ok (fun x => matrix_mul ⟨[1, 2, 3, 4], 2, 2⟩ x) :=
  ⟨rfl, C6_operand_order (0 : Int) "mat_mul_vec" matrix_mul ⟨[1, 2, 3, 4], 2, 2⟩ rfl⟩

/-- C7: `FlatMap` lookup returns the value of the first entry whose key equals the
argument and throws exactly when no key equals it; the directory of
`decode_function` gives `matrix_mul` for `mat_mul_vec`, `mat_mul_mat`,
`vec_mul_mat`, `matrix_add` for `vec_add_vec`, `mat_add_vec`, `mat_add_mat`,
`vec_dot_vec` for `vec_dot_vec`, and throws "value is not found" for every other
string. -/
theorem C7_directory_lookup {KeyType ValueType T : Type} [DecidableEq KeyType]
    [Zero T] [Add T] [Mul T] (init_arr : List (KeyType × ValueType))
    (h : init_arr.length ≤ FlatMap.MaxKeyPairs) (key : KeyType) (res : T) (s : String) :
    ((FlatMap.create init_arr h).operator_index key =
        match init_arr.find? (fun p => decide (key = p.1)) with
        | some p => .ok p.2
        | none => .error (.runtime_error "value is not found")) ∧
      ((∃ e, (FlatMap.create init_arr h).operator_index key = .error e) ↔
        ∀ p ∈ init_arr, p.1 ≠ key) ∧
      (decode_function_map res).operator_index "mat_mul_vec" = .ok matrix_mul ∧
      (decode_function_map res).operator_index "mat_mul_mat" = .ok matrix_mul ∧
      (decode_function_map res).operator_index "vec_mul_mat" = .ok matrix_mul ∧
      (decode_function_map res).operator_index "vec_add_vec" = .ok matrix_add ∧
      (decode_function_map res).operator_index "mat_add_vec" = .ok matrix_add ∧
      (decode_function_map res).operator_index "mat_add_mat" = .ok matrix_add ∧
      (decode_function_map res).operator_index "vec_dot_vec" = .ok (vec_dot_vec res) ∧
      (s ∉ recognised_names →
        (decode_function_map res).operator_index s =
          .error (.runtime_error "value is not found")) := by
  refine ⟨FlatMap.operator_index_eq init_arr h key, ?_, rfl, rfl, rfl, rfl, rfl, rfl, rfl,
    decode_function_map_not_found res s⟩
  rw [FlatMap.operator_index_eq init_arr h key]
  constructor
  · rintro ⟨e, he⟩ p hp hpk
    cases hfind : init_arr.find? (fun p => decide (key = p.1)) with
    | some q => rw [hfind] at he; cases he
    | none =>
      rw [List.find?_eq_none] at hfind
      have := hfind p hp
      simp only [decide_eq_true_eq] at this
      exact this hpk.symm
  · intro hall
    have hfind : init_arr.find? (fun p => decide (key = p.1)) = none := by
      rw [List.find?_eq_none]
      intro p hp
      simp only [decide_eq_true_eq]
      exact fun e => hall p hp e.symm
    rw [hfind]
    exact ⟨_, rfl⟩

/-- C7 at a two-entry map with a repeated key: the first entry wins. -/
theorem C7_witness :
    (FlatMap.create [("a", 1), ("b", 2), ("a", 3)] (by decide)).operator_index "a" =
        (.ok 1 : Except Exception Nat) ∧
      (decode_function_map (0 : Int)).operator_index "mat_mul" =
        .error (.runtime_error "value is not found") := by
  have h := C7_directory_lookup (T := Int) [("a", 1), ("b", 2), ("a", 3)] (by decide) "a" 0
    "mat_mul"
  exact ⟨h.1, h.2.2.2.2.2.2.2.2.2 (by decide)⟩

/-- C9: over a ring, for well-formed `A` and `B` of equal shape, `A += B` followed
by `+=` of `B` scaled by -1 succeeds and leaves `A` as it was at the start, in
its dimensions and in every element; scalar `*=` multiplies every element of a
well-formed matrix and never fails. -/
theorem C9_add_then_subtract_roundtrip {T : Type} [Ring T] (A B : Matrix T)
    (hA : A.wf) (hB : B.wf) (hr : A.row_count = B.row_count)
    (hc : A.element_count = B.element_count) :
    (∃ S Bneg : Matrix T, A.operator_plus_eq B = (S, .ok ()) ∧
        B.operator_mul_eq_scalar (-1) = (Bneg, .ok ()) ∧
        S.operator_plus_eq Bneg = (A, .ok ())) ∧
      (∀ (M : Matrix T) (v : T), M.wf →
        M.operator_mul_eq_scalar v =
          ({ M with data := M.data.map (fun a => a * v) }, .ok ())) := by
  refine ⟨?_, fun M v hM => Matrix.operator_mul_eq_scalar_spec M v hM⟩
  have hlen : A.data.length = B.data.length := by
    rw [hA.1, hB.1, hr, hc]
  have hS : ({ A with data := List.zipWith (fun a b => a + b) A.data B.data } : Matrix T).wf := by
    refine ⟨?_, hA.2⟩
    simp only [List.length_zipWith, ← hlen, Nat.min_self, hA.1]
  have hN : ({ B with data := B.data.map (fun a => a * -1) } : Matrix T).wf := by
    refine ⟨?_, hB.2⟩
    simp only [List.length_map, hB.1]
  refine ⟨_, _, Matrix.operator_plus_eq_spec A B hA hB hr.symm hc.symm,
    Matrix.operator_mul_eq_scalar_spec B (-1) hB, ?_⟩
  rw [Matrix.operator_plus_eq_spec _ _ hS hN hr.symm hc.symm]
  simp only [Matrix.zipWith_add_neg_cancel A.data B.data hlen]

/-- C9 at `[[1,2],[3,4]]` and `[[5,6],[7,8]]`. -/
theorem C9_witness :
    ((⟨[1, 2, 3, 4], 2, 2⟩ : Matrix Int).wf ∧ (⟨[5, 6, 7, 8], 2, 2⟩ : Matrix Int).wf) ∧
      ∃ S Bneg : Matrix Int,
        Matrix.operator_plus_eq ⟨[1, 2, 3, 4], 2, 2⟩ ⟨[5, 6, 7, 8], 2, 2⟩ = (S, .ok ()) ∧
        Matrix.operator_mul_eq_scalar ⟨[5, 6, 7, 8], 2, 2⟩ (-1) = (Bneg, .ok ()) ∧
        S.operator_plus_eq Bneg = (⟨[1, 2, 3, 4], 2, 2⟩, .ok ()) :=
  ⟨⟨by decide, by decide⟩,
    (C9_add_then_subtract_roundtrip (⟨[1, 2, 3, 4], 2, 2⟩ : Matrix Int) ⟨[5, 6, 7, 8], 2, 2⟩
      (by decide) (by decide) rfl rfl).1⟩

/-- C10, at the failing input: on the 1-by-3 vectors `A = [1,2,3]` and
`B = [4,5,6]`, `A.dot(B)` with its accumulator started from 0 returns 32 and
`B.dot(A)` with its accumulator started from 5 returns 37: each call adds the
products to its own indeterminate start value, so the two results agree only
when the two start values do. -/
theorem C10_dot_results_differ_with_start :
    Matrix.dot (0 : Int) ⟨[1, 2, 3], 1, 3⟩ ⟨[4, 5, 6], 1, 3⟩ = .ok 32 ∧
      Matrix.dot (5 : Int) ⟨[4, 5, 6], 1, 3⟩ ⟨[1, 2, 3], 1, 3⟩ = .ok 37 :=
  ⟨rfl, rfl⟩

/-! ## Move construction, assignment and the size invariant -/

namespace Matrix

variable {T : Type}

theorem create_fill_data (r c : Nat) (v : T) :
    (create_fill r c v).data = List.replicate (size_t_mul r c) v := by
  simp only [create_fill, detail.uninitialized_fill_eq]

theorem create_fill_wf (r c : Nat) (v : T) (hb : r * c < 2 ^ 64) : (create_fill r c v).wf := by
  unfold wf
  refine ⟨?_, hb⟩
  rw [create_fill_data, List.length_replicate, size_t_mul_of_lt hb]
  rfl

theorem operator_plus_eq_wf [Add T] (A B R : Matrix T) (hA : A.wf) (hB : B.wf)
    (h : A.operator_plus_eq B = (R, .ok ())) : R.wf := by
  by_cases hd : B.row_count = A.row_count ∧ B.element_count = A.element_count
  · rw [operator_plus_eq_spec A B hA hB hd.1 hd.2] at h
    have hR : R = { A with data := List.zipWith (fun a b => a + b) A.data B.data } :=
      (congrArg Prod.fst h).symm
    rw [hR]
    refine ⟨?_, hA.2⟩
    simp only [List.length_zipWith, hA.1, hB.1, hd.1, hd.2, Nat.min_self]
  · have hc : (B.element_count == A.element_count && B.row_count == A.row_count) = false := by
      simp only [Bool.and_eq_false_iff, beq_eq_false_iff_ne, ne_eq]
      by_cases h1 : B.element_count = A.element_count
      · right
        exact fun h2 => hd ⟨h2, h1⟩
      · left
        exact h1
    simp only [operator_plus_eq, hc, Bool.not_false, if_true] at h
    cases congrArg Prod.snd h

theorem operator_mul_eq_scalar_wf [Mul T] (A R : Matrix T) (v : T) (hA : A.wf)
    (h : A.operator_mul_eq_scalar v = (R, .ok ())) : R.wf := by
  rw [operator_mul_eq_scalar_spec A v hA] at h
  have hR : R = { A with data := A.data.map (fun a => a * v) } := (congrArg Prod.fst h).symm
  rw [hR]
  refine ⟨?_, hA.2⟩
  simp only [List.length_map, hA.1]

theorem operator_mul_eq_wf [Zero T] [Add T] [Mul T] (A B R : Matrix T)
    (h : A.operator_mul_eq B = (R, .ok ())) : R.wf := by
  obtain ⟨hfit, hr, hc, hl⟩ := operator_mul_eq_fit A B R h
  unfold wf
  rw [hl, hr, hc]
  exact ⟨rfl, hfit⟩

end Matrix

namespace Store

variable {T : Type}

/-- Between two distinct objects, move assignment gives `*this` the members of `m`
and resets `m`, as `Matrix.move_assign` says. -/
theorem operator_assign_move_distinct (s : Store T) (this m : Nat) (h : this ≠ m) :
    (s.operator_assign_move this m) this = ((s this).move_assign (s m)).1 ∧
      (s.operator_assign_move this m) m = ((s this).move_assign (s m)).2 := by
  have h2 : m ≠ this := fun e => h e.symm
  simp only [operator_assign_move, write, if_true, if_false, h, h2, Matrix.move_assign]
  exact ⟨trivial, trivial⟩

/-- Copy assignment of an object to itself changes nothing. -/
theorem operator_assign_copy_self (s : Store T) (this : Nat) :
    s.operator_assign_copy this this = (s, .ok ()) := by
  simp only [operator_assign_copy, if_true]

end Store

/-! ## Rollback of the bulk constructors -/

namespace detail.rollback

theorem destroy_loop_range :
    ∀ (k first : Nat) (L D : List Nat), (∀ i, i < k → first + i ∉ L) →
      destroy_loop k first (first + k) ⟨L ++ List.range' first k, D⟩ =
        some ⟨L, D ++ List.range' first k⟩ := by
  intro k
  induction k with
  | zero =>
    intro first L D _
    simp only [destroy_loop, Nat.add_zero, if_true, List.range'_zero, List.append_nil]
  | succ k ih =>
    intro first L D hfresh
    have hne : ¬ first = first + (k + 1) := by omega
    have hL : first ∉ L := by
      have := hfresh 0 (by omega)
      simpa using this
    rw [destroy_loop, if_neg hne]
    simp only [List.range'_succ]
    rw [List.erase_append_right _ hL, List.erase_cons_head]
    have e : first + (k + 1) = first + 1 + k := by omega
    rw [e, ih (first + 1) L (D ++ [first]) (by
      intro i hi
      have := hfresh (i + 1) (by omega)
      rw [show first + 1 + i = first + (i + 1) by omega]
      exact this)]
    rw [List.append_assoc, List.singleton_append]

theorem destroy_of_le (first k : Nat) (L D : List Nat)
    (hfresh : ∀ i, i < k → first + i ∉ L) :
    destroy first (first + k) ⟨L ++ List.range' first k, D⟩ =
      some ⟨L, D ++ List.range' first k⟩ := by
  unfold destroy
  rw [Nat.add_sub_cancel_left]
  exact destroy_loop_range k first L D hfresh

theorem destroy_of_gt (first last : Nat) (st : Storage) (h : last < first) :
    destroy first last st = none := by
  unfold destroy
  rw [Nat.sub_eq_zero_of_le (Nat.le_of_lt h), destroy_loop, if_neg (by omega)]

theorem destroy_loop_log :
    ∀ (k first : Nat) (st : Storage),
      ∃ L, destroy_loop k first (first + k) st = some ⟨L, st.destroyed ++ List.range' first k⟩ := by
  intro k
  induction k with
  | zero =>
    intro first st
    exact ⟨st.live, by
      simp only [destroy_loop, Nat.add_zero, if_true, List.range'_zero, List.append_nil]⟩
  | succ k ih =>
    intro first st
    have hne : ¬ first = first + (k + 1) := by omega
    obtain ⟨L, hL⟩ := ih (first + 1)
      ⟨st.live.erase first, st.destroyed ++ [first]⟩
    refine ⟨L, ?_⟩
    rw [destroy_loop, if_neg hne, show first + (k + 1) = first + 1 + k by omega, hL]
    simp only [List.range'_succ, List.append_assoc, List.singleton_append]

theorem construct_loop_throw (construct : Nat → Option Exception) (first last k : Nat)
    (e : Exception) (hk : first + k < last)
    (hok : ∀ i, i < k → construct (first + i) = none)
    (he : construct (first + k) = some e) :
    ∀ (d current : Nat) (st : Storage), current + d = first + k → first ≤ current →
      construct_loop construct (last - current) current last st =
        some (⟨st.live ++ List.range' current d, st.destroyed⟩, first + k, some e) := by
  intro d
  induction d with
  | zero =>
    intro current st hc _
    have hcur : current = first + k := by omega
    subst hcur
    obtain ⟨m, hm⟩ : ∃ m, last - (first + k) = m + 1 := ⟨last - (first + k) - 1, by omega⟩
    rw [hm, construct_loop, if_neg (by omega), he]
    simp only [List.range'_zero, List.append_nil]
  | succ d ih =>
    intro current st hc hfirst
    obtain ⟨m, hm⟩ : ∃ m, last - current = m + 1 := ⟨last - current - 1, by omega⟩
    have hnone : construct current = none := by
      have := hok (current - first) (by omega)
      rw [show first + (current - first) = current by omega] at this
      exact this
    rw [hm, construct_loop, if_neg (by omega), hnone]
    simp only []
    have hm2 : m = last - (current + 1) := by omega
    rw [hm2, ih (current + 1) _ (by omega) (by omega)]
    simp only [List.range'_succ, List.append_assoc, List.singleton_append]

/-- When the construction of element `k` of `n` throws, `uninitialized_default_construct`
calls `destroy` on exactly the `k` elements it has constructed, once each and in
order, leaves none of them live and the objects that were live before as they
were, and rethrows. -/
theorem uninitialized_default_construct_rollback (construct : Nat → Option Exception)
    (first n k : Nat) (e : Exception) (st : Storage) (hk : k < n)
    (hok : ∀ i, i < k → construct (first + i) = none)
    (he : construct (first + k) = some e)
    (hfresh : ∀ i, i < k → first + i ∉ st.live) :
    uninitialized_default_construct construct first (first + n) st =
      some (⟨st.live, st.destroyed ++ List.range' first k⟩, .error e) := by
  unfold uninitialized_default_construct
  rw [Nat.add_sub_cancel_left]
  have h := construct_loop_throw construct first (first + n) k e (by omega) hok he k first st
    (by omega) (Nat.le_refl _)
  rw [Nat.add_sub_cancel_left] at h
  rw [h]
  simp only []
  rw [destroy_of_le first k st.live st.destroyed hfresh]

/-- The same for `uninitialized_fill`. -/
theorem uninitialized_fill_rollback (construct : Nat → Option Exception)
    (first n k : Nat) (e : Exception) (st : Storage) (hk : k < n)
    (hok : ∀ i, i < k → construct (first + i) = none)
    (he : construct (first + k) = some e)
    (hfresh : ∀ i, i < k → first + i ∉ st.live) :
    uninitialized_fill construct first (first + n) st =
      some (⟨st.live, st.destroyed ++ List.range' first k⟩, .error e) := by
  unfold uninitialized_fill
  rw [Nat.add_sub_cancel_left]
  have h := construct_loop_throw construct first (first + n) k e (by omega) hok he k first st
    (by omega) (Nat.le_refl _)
  rw [Nat.add_sub_cancel_left] at h
  rw [h]
  simp only []
  rw [destroy_of_le first k st.live st.destroyed hfresh]

theorem copy_loop_throw (construct : Nat → Nat → Option Exception)
    (first last d_first k : Nat) (e : Exception) (hk : first + k < last)
    (hok : ∀ i, i < k → construct (d_first + i) (first + i) = none)
    (he : construct (d_first + k) (first + k) = some e) :
    ∀ (d j : Nat) (st : Storage), j + d = k →
      copy_loop construct (last - (first + j)) (first + j) last (d_first + j) st =
        some (⟨st.live ++ List.range' (d_first + j) d, st.destroyed⟩, first + k, d_first + k,
          some e) := by
  intro d
  induction d with
  | zero =>
    intro j st hj
    have hjk : j = k := by omega
    subst hjk
    obtain ⟨m, hm⟩ : ∃ m, last - (first + j) = m + 1 := ⟨last - (first + j) - 1, by omega⟩
    rw [hm, copy_loop, if_neg (by omega), he]
    simp only [List.range'_zero, List.append_nil]
  | succ d ih =>
    intro j st hj
    obtain ⟨m, hm⟩ : ∃ m, last - (first + j) = m + 1 := ⟨last - (first + j) - 1, by omega⟩
    rw [hm, copy_loop, if_neg (by omega), hok j (by omega)]
    simp only []
    have hm2 : m = last - (first + (j + 1)) := by omega
    rw [hm2, show first + j + 1 = first + (j + 1) by omega,
      show d_first + j + 1 = d_first + (j + 1) by omega, ih (j + 1) _ (by omega)]
    simp only [List.range'_succ, List.append_assoc, List.singleton_append]
    rw [show d_first + j + 1 = d_first + (j + 1) by omega]

/-- When the copy of element `k` of `n` throws, `uninitialized_copy` calls `destroy`
from the source address `first + k` up to the destination address
`d_first + k`.  With the source below the destination the addresses destroyed
are `first + k`, ..., `d_first + k - 1`, the first of them the source element
`k`; with the source above the destination the loop of `destroy` does not
end. -/
theorem uninitialized_copy_rollback (construct : Nat → Nat → Option Exception)
    (first n d_first k : Nat) (e : Exception) (st : Storage) (hk : k < n)
    (hok : ∀ i, i < k → construct (d_first + i) (first + i) = none)
    (he : construct (d_first + k) (first + k) = some e) :
    (first < d_first →
      ∃ L, uninitialized_copy construct first (first + n) d_first st =
        some (⟨L, st.destroyed ++ List.range' (first + k) (d_first - first)⟩, .error e)) ∧
    (d_first < first → uninitialized_copy construct first (first + n) d_first st = none) := by
  have h := copy_loop_throw construct first (first + n) d_first k e (by omega) hok he k 0 st
    (by omega)
  simp only [Nat.add_zero] at h
  constructor
  · intro hlt
    obtain ⟨L, hL⟩ := destroy_loop_log (d_first - first) (first + k)
      ⟨st.live ++ List.range' d_first k, st.destroyed⟩
    refine ⟨L, ?_⟩
    unfold uninitialized_copy
    rw [h]
    simp only []
    unfold destroy
    rw [show d_first + k - (first + k) = d_first - first by omega]
    rw [show first + k + (d_first - first) = d_first + k by omega] at hL
    rw [hL]
  · intro hgt
    unfold uninitialized_copy
    rw [h]
    simp only []
    rw [destroy_of_gt _ _ _ (by omega)]

end detail.rollback

/-! ## Streams, `read_matrix` and `config` -/

theorem dropWhile_eq_cons_head {α : Type} (p : α → Bool) :
    ∀ (l : List α) (c : α) (cs : List α), l.dropWhile p = c :: cs → p c = false := by
  intro l
  induction l with
  | nil => intro c cs h; cases h
  | cons a l ih =>
    intro c cs h
    by_cases hp : p a = true
    · rw [List.dropWhile_cons_of_pos hp] at h
      exact ih c cs h
    · rw [List.dropWhile_cons_of_neg hp] at h
      cases h
      simpa using hp

theorem length_dropWhile_le {α : Type} (p : α → Bool) (l : List α) :
    (l.dropWhile p).length ≤ l.length :=
  (List.dropWhile_sublist p).length_le

namespace istream

theorem operator_extract_buf_le (is : istream) (str : String) :
    (is.operator_extract str).2.buf.length ≤ is.buf.length := by
  unfold operator_extract
  split
  · exact Nat.le_refl _
  · split
    · exact Nat.zero_le _
    · rename_i c cs h
      have h1 := length_dropWhile_le (fun x => !isspace x) (c :: cs)
      have h2 := length_dropWhile_le isspace is.buf
      rw [h] at h2
      exact Nat.le_trans h1 h2

theorem operator_extract_consumed (is : istream)
    (h : (is.operator_extract "").1 ≠ "") :
    (is.operator_extract "").2.buf.length < is.buf.length := by
  unfold operator_extract at h ⊢
  split
  · rename_i hg
    rw [if_pos hg] at h
    exact absurd rfl h
  · rename_i hg
    rw [if_neg hg] at h
    split
    · rename_i hd
      rw [hd] at h
      exact absurd rfl h
    · rename_i c cs hd
      have hc : isspace c = false := dropWhile_eq_cons_head isspace is.buf c cs hd
      have hp : (fun x => !isspace x) c = true := by simp only [hc, Bool.not_false]
      have h1 := length_dropWhile_le (fun x => !isspace x) cs
      have h2 := length_dropWhile_le isspace is.buf
      rw [hd] at h2
      have e := congrArg List.length
        (List.dropWhile_cons_of_pos (p := fun x => !isspace x) (a := c) (l := cs) hp)
      simp only [List.length_cons] at h2
      simp only at e ⊢
      omega

end istream

theorem decode_function_stream {T : Type} [Zero T] [Add T] [Mul T]
    (files : String → Option String) (stod : String → Except Exception T) (res : T)
    (is : istream) :
    (decode_function files stod res is).1 =
      ((is.operator_extract "").2.operator_extract "").2 := by
  unfold decode_function
  simp only []
  split
  · rfl
  · split <;> rfl

theorem decode_function_eq {T : Type} [Zero T] [Add T] [Mul T]
    (files : String → Option String) (stod : String → Except Exception T) (res : T)
    (is : istream) :
    (decode_function files stod res is).2 =
      match files ((is.operator_extract "").2.operator_extract "").1 with
      | none => .error (.runtime_error "Cannot open matrix_file")
      | some content =>
        match read_matrix stod (istream.on_string content) with
        | .error e => .error e
        | .ok matrix => decode_function_bind res (is.operator_extract "").1 matrix := by
  unfold decode_function
  simp only []
  cases files ((is.operator_extract "").2.operator_extract "").1 with
  | none => rfl
  | some content =>
    simp only []
    cases read_matrix stod (istream.on_string content) <;> rfl

theorem decode_function_ok_name {T : Type} [Zero T] [Add T] [Mul T]
    (files : String → Option String) (stod : String → Except Exception T) (res : T)
    (is : istream) (f : MatrixFunction T)
    (h : (decode_function files stod res is).2 = .ok f) :
    (is.operator_extract "").1 ∈ recognised_names := by
  rw [decode_function_eq] at h
  split at h
  · cases h
  · split at h
    · cases h
    · rename_i matrix _
      by_cases h3 : 3 ≤ (is.operator_extract "").1.length
      · rw [decode_function_bind_eq res _ matrix h3] at h
        split at h
        · cases h
        · rename_i g hg
          exact decode_function_map_found res _ g hg
      · rw [decode_function_bind_short res _ matrix (by omega)] at h
        cases h

theorem config_loop_succ {T : Type} [Zero T] [Add T] [Mul T]
    (files : String → Option String) (stod : String → Except Exception T) (res : T)
    (n : Nat) (is : istream) (pipe : Pipe (MatrixFunction T)) (h : is.eof = false) :
    config_loop files stod res (n + 1) is pipe =
      match (decode_function files stod res is).2 with
      | .error e => .error e
      | .ok f => config_loop files stod res n (decode_function files stod res is).1
          (pipe.push_back f) := by
  rw [config_loop]
  simp only [h, Bool.false_eq_true, if_false]
  cases hd : decode_function files stod res is with
  | mk is1 r =>
    cases r with
    | error e => rfl
    | ok f => rfl

theorem config_loop_length {T : Type} [Zero T] [Add T] [Mul T]
    (files : String → Option String) (stod : String → Except Exception T) (res : T) :
    ∀ (n : Nat) (is : istream) (pipe p : Pipe (MatrixFunction T)),
      config_loop files stod res n is pipe = .ok p →
      pipe.function_objects.length ≤ p.function_objects.length ∧
      (is.eof = false → pipe.function_objects.length + 1 ≤ p.function_objects.length) := by
  intro n
  induction n with
  | zero =>
    intro is pipe p h
    rw [config_loop] at h
    by_cases he : is.eof = true
    · rw [if_pos he] at h
      cases h
      exact ⟨Nat.le_refl _, fun hf => by rw [he] at hf; cases hf⟩
    · rw [if_neg he] at h
      cases h
  | succ n ih =>
    intro is pipe p h
    by_cases he : is.eof = true
    · rw [config_loop, if_pos he] at h
      cases h
      exact ⟨Nat.le_refl _, fun hf => by rw [he] at hf; cases hf⟩
    · have he2 : is.eof = false := by simpa using he
      rw [config_loop_succ files stod res n is pipe he2] at h
      split at h
      · cases h
      · rename_i f _
        have := (ih _ _ p h).1
        simp only [Pipe.push_back, List.length_append, List.length_singleton] at this
        exact ⟨by omega, fun _ => this⟩

namespace istream

theorem operator_extract_not_fail (is : istream) (str : String)
    (h : (is.operator_extract str).2.fail = false) :
    (is.operator_extract str).2.buf.length < is.buf.length := by
  unfold operator_extract at h ⊢
  split
  · rename_i hg
    rw [if_pos hg] at h
    cases h
  · rename_i hg
    rw [if_neg hg] at h
    split
    · rename_i hd
      rw [hd] at h
      cases h
    · rename_i c cs hd
      have hc : isspace c = false := dropWhile_eq_cons_head isspace is.buf c cs hd
      have hp : (fun x => !isspace x) c = true := by simp only [hc, Bool.not_false]
      have h1 := length_dropWhile_le (fun x => !isspace x) cs
      have h2 := length_dropWhile_le isspace is.buf
      rw [hd] at h2
      have e := congrArg List.length
        (List.dropWhile_cons_of_pos (p := fun x => !isspace x) (a := c) (l := cs) hp)
      simp only [List.length_cons] at h2
      simp only at e ⊢
      omega

theorem getline_not_fail (is : istream) (str : String)
    (h : (is.getline str).2.fail = false) :
    (is.getline str).2.buf.length < is.buf.length := by
  unfold getline at h ⊢
  split
  · rename_i hg
    rw [if_pos hg] at h
    cases h
  · rename_i hg
    rw [if_neg hg] at h
    split
    · rename_i hd
      rw [hd] at h
      cases h
    · rename_i c cs hd
      split
      · simp only [List.length_nil, hd, List.length_cons]
        omega
      · rename_i x rest hr
        have h1 := length_dropWhile_le (fun x => x != '\n') (c :: cs)
        rw [hr] at h1
        simp only [List.length_cons] at h1
        simp only [hd, List.length_cons]
        omega

/-- The line `getline` reads and the characters it leaves are together no more
than the characters it found. -/
theorem getline_length (is : istream) (str : String)
    (h : (is.getline str).2.fail = false ∨ str.length = 0) :
    (is.getline str).1.length + (is.getline str).2.buf.length ≤ is.buf.length := by
  unfold getline at h ⊢
  split
  · rename_i hg
    rw [if_pos hg] at h
    rcases h with h | h
    · cases h
    · simp only [h, Nat.zero_add, Nat.le_refl]
  · split
    · rename_i hd
      simp only [hd, List.length_nil, Nat.add_zero]
      exact Nat.zero_le _
    · rename_i c cs hd
      have hsum := congrArg List.length
        (List.takeWhile_append_dropWhile (fun x => x != '\n') (c :: cs))
      rw [List.length_append] at hsum
      split
      · rename_i hr
        rw [hr] at hsum
        simp only [hd, String.length, List.length_nil] at hsum ⊢
        omega
      · rename_i x rest hr
        rw [hr] at hsum
        simp only [hd, String.length, List.length_cons] at hsum ⊢
        omega

end istream

/-- The bound of the loop of `split` is not reached: every bound above the number
of characters left gives the same result. -/
theorem split_loop_fuel :
    ∀ (n m : Nat) (ss : istream) (in_str : String) (out : List String),
      ss.buf.length < n → ss.buf.length < m →
      split_loop n ss in_str out = split_loop m ss in_str out := by
  intro n
  induction n with
  | zero => intro m ss in_str out h; omega
  | succ n ih =>
    intro m ss in_str out hn hm
    cases m with
    | zero => omega
    | succ m =>
      rw [split_loop, split_loop]
      by_cases hf : (ss.operator_extract in_str).2.fail = true
      · rw [if_pos hf, if_pos hf]
      · rw [if_neg hf, if_neg hf]
        have hlt := istream.operator_extract_not_fail ss in_str (by simpa using hf)
        exact ih m _ _ _ (by omega) (by omega)

/-- The loop of `split` appends no more tokens than there are characters left. -/
theorem split_loop_length :
    ∀ (n : Nat) (ss : istream) (in_str : String) (out : List String),
      (split_loop n ss in_str out).length ≤ out.length + ss.buf.length := by
  intro n
  induction n with
  | zero =>
    intro ss in_str out
    rw [split_loop]
    omega
  | succ n ih =>
    intro ss in_str out
    rw [split_loop]
    by_cases hf : (ss.operator_extract in_str).2.fail = true
    · rw [if_pos hf]
      omega
    · rw [if_neg hf]
      have hlt := istream.operator_extract_not_fail ss in_str (by simpa using hf)
      have h := ih (ss.operator_extract in_str).2 (ss.operator_extract in_str).1
        (out ++ [(ss.operator_extract in_str).1])
      rw [List.length_append, List.length_singleton] at h
      omega

theorem split_length (s : String) : (split s []).length ≤ s.length := by
  have h := split_loop_length (s.length + 1) (istream.on_string s) "" []
  rw [List.length_nil, Nat.zero_add] at h
  exact h

/-- The rows `read_matrix` collects hold, together with the characters left, no
more tokens than the characters the stream had. -/
theorem read_matrix_rows_count :
    ∀ (n : Nat) (is : istream) (in_str : String) (element_count : Nat)
      (tempSMatrix rows : List (List String)) (N : Nat),
      read_matrix_rows n is in_str element_count tempSMatrix = .ok rows →
      tempSMatrix.length * element_count + is.buf.length ≤ N →
      rows.length * element_count ≤ N := by
  intro n
  induction n with
  | zero =>
    intro is in_str ec acc rows N h
    rw [read_matrix_rows] at h
    cases h
  | succ n ih =>
    intro is in_str ec acc rows N h hN
    rw [read_matrix_rows] at h
    by_cases hf : (is.getline in_str).2.fail = true
    · rw [if_pos hf] at h
      cases h
      omega
    · rw [if_neg hf] at h
      by_cases hc : ((split (is.getline in_str).1 []).length != ec) = true
      · rw [if_pos hc] at h
        cases h
      · rw [if_neg hc] at h
        have hlen : (split (is.getline in_str).1 []).length = ec := by simpa using hc
        have h1 := split_length (is.getline in_str).1
        have h2 := istream.getline_length is in_str (Or.inl (by simpa using hf))
        apply ih _ _ _ _ _ N h
        rw [List.length_append, List.length_singleton, Nat.succ_mul]
        omega

theorem read_matrix_rows_spec :
    ∀ (n : Nat) (is : istream) (in_str : String) (element_count : Nat)
      (tempSMatrix : List (List String)),
      is.buf.length < n → (∀ row ∈ tempSMatrix, row.length = element_count) →
      read_matrix_rows n is in_str element_count tempSMatrix =
          .error (.runtime_error "Wrong file format.") ∨
        ∃ more, read_matrix_rows n is in_str element_count tempSMatrix =
            .ok (tempSMatrix ++ more) ∧
          ∀ row ∈ tempSMatrix ++ more, row.length = element_count := by
  intro n
  induction n with
  | zero => intro is in_str ec acc h; omega
  | succ n ih =>
    intro is in_str ec acc hn hacc
    rw [read_matrix_rows]
    by_cases hf : (is.getline in_str).2.fail = true
    · rw [if_pos hf]
      exact Or.inr ⟨[], by rw [List.append_nil], by rw [List.append_nil]; exact hacc⟩
    · rw [if_neg hf]
      by_cases hc : ((split (is.getline in_str).1 []).length != ec) = true
      · rw [if_pos hc]
        exact Or.inl rfl
      · rw [if_neg hc]
        have hlen : (split (is.getline in_str).1 []).length = ec := by simpa using hc
        have hlt := istream.getline_not_fail is in_str (by simpa using hf)
        have hacc2 : ∀ row ∈ acc ++ [split (is.getline in_str).1 []], row.length = ec := by
          intro row hrow
          rcases List.mem_append.mp hrow with h1 | h1
          · exact hacc row h1
          · rw [List.mem_singleton.mp h1]
            exact hlen
        rcases ih (is.getline in_str).2 (is.getline in_str).1 ec _ (by omega) hacc2 with h1 | h1
        · exact Or.inl h1
        · obtain ⟨more, h2, h3⟩ := h1
          refine Or.inr ⟨split (is.getline in_str).1 [] :: more, ?_, ?_⟩
          · rw [h2, List.append_assoc, List.singleton_append]
          · rw [List.append_assoc, List.singleton_append] at h3
            exact h3

theorem read_matrix_fill_cols_spec {T : Type} (stod : String → Except Exception T)
    (tempSMatrix : List (List String)) (i R C : Nat) (row : List String)
    (hrow : tempSMatrix[i]? = some row) (hrl : row.length = C) (hi : i < R)
    (hfit : R * C < 2 ^ 64) :
    ∀ (n j : Nat) (result : Matrix T), result.element_count = C →
      result.data.length = R * C → j + n ≤ C →
      (∃ tok e, stod tok = .error e ∧
          read_matrix_fill_cols stod tempSMatrix i n j result = .error e) ∨
        ∃ res : Matrix T, read_matrix_fill_cols stod tempSMatrix i n j result = .ok res ∧
          res.element_count = C ∧ res.row_count = result.row_count ∧
          res.data.length = R * C := by
  intro n
  induction n with
  | zero =>
    intro j result hec hlen _
    exact Or.inr ⟨result, rfl, hec, rfl, hlen⟩
  | succ n ih =>
    intro j result hec hlen hj
    have hjl : j < row.length := by omega
    have hidx : i * result.element_count + j < result.data.length := by
      rw [hec, hlen]
      exact Matrix.index_lt hi (by omega)
    have hie : result.index i j = i * result.element_count + j := Matrix.index_eq (by omega)
    rw [read_matrix_fill_cols]
    simp only [hrow, List.getElem?_eq_getElem hjl]
    cases hs : stod row[j] with
    | error e => exact Or.inl ⟨row[j], e, hs, rfl⟩
    | ok v =>
      simp only [Matrix.operator_call_assign, hie, hidx, if_true]
      exact ih (j + 1) _ hec (by rw [List.length_set]; exact hlen) (by omega)

theorem read_matrix_fill_rows_spec {T : Type} (stod : String → Except Exception T)
    (tempSMatrix : List (List String)) (C : Nat)
    (hrows : ∀ row ∈ tempSMatrix, row.length = C)
    (hfit : tempSMatrix.length * C < 2 ^ 64) :
    ∀ (n i : Nat) (result : Matrix T), result.element_count = C →
      result.data.length = tempSMatrix.length * C → i + n ≤ tempSMatrix.length →
      (∃ tok e, stod tok = .error e ∧
          read_matrix_fill_rows stod tempSMatrix n i result = .error e) ∨
        ∃ res : Matrix T, read_matrix_fill_rows stod tempSMatrix n i result = .ok res ∧
          res.element_count = C ∧ res.row_count = result.row_count ∧
          res.data.length = tempSMatrix.length * C := by
  intro n
  induction n with
  | zero =>
    intro i result hec hlen _
    exact Or.inr ⟨result, rfl, hec, rfl, hlen⟩
  | succ n ih =>
    intro i result hec hlen hi
    have hil : i < tempSMatrix.length := by omega
    rw [read_matrix_fill_rows]
    rcases read_matrix_fill_cols_spec stod tempSMatrix i tempSMatrix.length C tempSMatrix[i]
        (List.getElem?_eq_getElem hil) (hrows _ (List.getElem_mem _)) hil hfit
        result.get_element_count 0 result hec hlen
        (by rw [Matrix.get_element_count, hec]; omega) with h | h
    · obtain ⟨tok, e, h1, h2⟩ := h
      rw [h2]
      exact Or.inl ⟨tok, e, h1, rfl⟩
    · obtain ⟨res1, h1, h2, h3, h4⟩ := h
      rw [h1]
      simp only []
      rcases ih (i + 1) res1 h2 h4 (by omega) with h5 | h5
      · exact Or.inl h5
      · obtain ⟨res, h6, h7, h8, h9⟩ := h5
        exact Or.inr ⟨res, h6, h7, by rw [h8, h3], h9⟩

/-- The outcomes of `read_matrix` on a stream of fewer than `2 ^ 64` characters:
"Wrong file format.", an exception of `stod`, or a well-formed matrix.  It
neither throws "Empty file." nor reaches outside a buffer nor uses up the bound
of its loop. -/
theorem read_matrix_outcome {T : Type} [Zero T] (stod : String → Except Exception T)
    (is : istream) (hsmall : is.buf.length < 2 ^ 64) :
    read_matrix stod is = .error (.runtime_error "Wrong file format.") ∨
      (∃ tok e, stod tok = .error e ∧ read_matrix stod is = .error e) ∨
      ∃ M : Matrix T, read_matrix stod is = .ok M ∧ M.wf ∧ 1 ≤ M.row_count := by
  unfold read_matrix
  rcases read_matrix_rows_spec ((is.getline "").2.buf.length + 1) (is.getline "").2
      (is.getline "").1 (split (is.getline "").1 []).length [split (is.getline "").1 []]
      (by omega) (by
        intro row hrow
        rw [List.mem_singleton.mp hrow]) with h | h
  · rw [h]
    exact Or.inl rfl
  · obtain ⟨more, h1, h2⟩ := h
    rw [h1]
    simp only [List.singleton_append]
    have hfit : (split (is.getline "").1 [] :: more).length
        * (split (is.getline "").1 []).length < 2 ^ 64 := by
      have h3 := split_length (is.getline "").1
      have h4 := istream.getline_length is "" (Or.inr rfl)
      have h5 := read_matrix_rows_count _ _ _ _ _ _ is.buf.length h1 (by
        rw [List.length_singleton, Nat.one_mul]
        omega)
      rw [List.singleton_append] at h5
      omega
    rcases read_matrix_fill_rows_spec stod (split (is.getline "").1 [] :: more)
        (split (is.getline "").1 []).length (by
          intro row hrow
          exact h2 row (by rw [List.singleton_append]; exact hrow)) hfit
        (Matrix.create (split (is.getline "").1 [] :: more).length
          (split (is.getline "").1 []).length : Matrix T).get_row_count 0
        (Matrix.create (split (is.getline "").1 [] :: more).length
          (split (is.getline "").1 []).length) rfl (Matrix.create_wf _ _ hfit).1
        (by simp only [Matrix.get_row_count, Matrix.create]; omega) with h3 | h3
    · obtain ⟨tok, e, h4, h5⟩ := h3
      exact Or.inr (Or.inl ⟨tok, e, h4, h5⟩)
    · obtain ⟨res, h4, h5, h6, h7⟩ := h3
      have hrc : res.row_count = (split (is.getline "").1 [] :: more).length := by
        rw [h6]
        rfl
      refine Or.inr (Or.inr ⟨res, h4, ?_, ?_⟩)
      · unfold Matrix.wf
        rw [h7, h5, hrc]
        exact ⟨rfl, hfit⟩
      · rw [hrc, List.length_cons]
        omega

theorem decode_function_bind_error {T : Type} [Zero T] [Add T] [Mul T] (res : T)
    (n : String) (M : Matrix T) (e : Exception)
    (h : decode_function_bind res n M = .error e) :
    e = .out_of_range ∨ e = .runtime_error "value is not found" := by
  by_cases h3 : 3 ≤ n.length
  · rw [decode_function_bind_eq res n M h3, decode_function_map,
      FlatMap.operator_index_eq] at h
    split at h
    · rename_i e1 he1
      split at he1
      · cases he1
      · cases he1
        cases h
        exact Or.inr rfl
    · cases h
  · rw [decode_function_bind_short res n M (by omega)] at h
    cases h
    exact Or.inl rfl

theorem decode_function_error_thrown {T : Type} [Zero T] [Add T] [Mul T]
    (files : String → Option String) (stod : String → Except Exception T) (res : T)
    (hstod : ∀ tok e, stod tok = .error e → e.thrown)
    (hsmall : ∀ source content, files source = some content → content.length < 2 ^ 64)
    (is : istream) (e : Exception)
    (h : (decode_function files stod res is).2 = .error e) : e.thrown := by
  rw [decode_function_eq] at h
  split at h
  · cases h
    (constructor <;> intro hc <;> cases hc)
  · rename_i content hcontent
    rcases read_matrix_outcome stod (istream.on_string content)
      (hsmall _ content hcontent) with h1 | h1 | h1
    · rw [h1] at h
      cases h
      (constructor <;> intro hc <;> cases hc)
    · obtain ⟨tok, e1, h2, h3⟩ := h1
      rw [h3] at h
      cases h
      exact hstod tok e h2
    · obtain ⟨M, h2, _⟩ := h1
      rw [h2] at h
      rcases decode_function_bind_error res _ M e h with h4 | h4 <;> rw [h4] <;>
        (constructor <;> intro hc <;> cases hc)

theorem decode_function_ok_consumed {T : Type} [Zero T] [Add T] [Mul T]
    (files : String → Option String) (stod : String → Except Exception T) (res : T)
    (is : istream) (f : MatrixFunction T)
    (h : (decode_function files stod res is).2 = .ok f) :
    (decode_function files stod res is).1.buf.length < is.buf.length := by
  have hname := decode_function_ok_name files stod res is f h
  have hne : (is.operator_extract "").1 ≠ "" := by
    intro hc
    rw [hc] at hname
    revert hname
    decide
  have h1 := istream.operator_extract_consumed is hne
  have h2 := istream.operator_extract_buf_le (is.operator_extract "").2 ""
  rw [decode_function_stream]
  omega

/-- The bound of the loop of `config` is not reached, and on operand files of
fewer than `2 ^ 64` characters `config` reaches outside no buffer: an error of
`config` is an exception thrown by the program. -/
theorem config_loop_error_thrown {T : Type} [Zero T] [Add T] [Mul T]
    (files : String → Option String) (stod : String → Except Exception T) (res : T)
    (hstod : ∀ tok e, stod tok = .error e → e.thrown)
    (hsmall : ∀ source content, files source = some content → content.length < 2 ^ 64) :
    ∀ (n : Nat) (is : istream) (pipe : Pipe (MatrixFunction T)) (e : Exception),
      (is.eof = true ∨ is.buf.length < n) →
      config_loop files stod res n is pipe = .error e → e.thrown := by
  intro n
  induction n with
  | zero =>
    intro is pipe e hb h
    have he : is.eof = true := by
      rcases hb with h1 | h1
      · exact h1
      · omega
    rw [config_loop, if_pos he] at h
    cases h
  | succ n ih =>
    intro is pipe e hb h
    by_cases he : is.eof = true
    · rw [config_loop, if_pos he] at h
      cases h
    · have he2 : is.eof = false := by simpa using he
      have hlen : is.buf.length < n + 1 := by
        rcases hb with h1 | h1
        · exact absurd h1 he
        · exact h1
      rw [config_loop_succ files stod res n is pipe he2] at h
      split at h
      · rename_i e1 he1
        cases h
        exact decode_function_error_thrown files stod res hstod hsmall is e he1
      · rename_i f hf
        have hc := decode_function_ok_consumed files stod res is f hf
        exact ih _ _ e (Or.inr (by omega)) h

theorem config_error_thrown {T : Type} [Zero T] [Add T] [Mul T]
    (files : String → Option String) (stod : String → Except Exception T) (res : T)
    (hstod : ∀ tok e, stod tok = .error e → e.thrown)
    (hsmall : ∀ source content, files source = some content → content.length < 2 ^ 64)
    (is : istream) (e : Exception)
    (h : config files stod res is = .error e) : e.thrown :=
  config_loop_error_thrown files stod res hstod hsmall _ is _ e (Or.inr (Nat.lt_succ_self _)) h

theorem stod_digits_thrown (tok : String) (e : Exception)
    (h : stod_digits tok = .error e) : e.thrown := by
  unfold stod_digits at h
  split at h <;> split at h <;> cases h <;>
    (constructor <;> intro hc <;> cases hc)

/-! ## Configurations given line by line -/

theorem takeWhile_append_stop {α : Type} (p : α → Bool) (t rest : List α)
    (ht : ∀ c ∈ t, p c = true) (hrest : rest = [] ∨ ∃ c cs, rest = c :: cs ∧ p c = false) :
    (t ++ rest).takeWhile p = t ∧ (t ++ rest).dropWhile p = rest := by
  rw [List.takeWhile_append_of_pos ht, List.dropWhile_append_of_pos ht]
  rcases hrest with h | ⟨c, cs, h, hc⟩
  · rw [h]
    exact ⟨by rw [List.takeWhile_nil, List.append_nil], rfl⟩
  · rw [h]
    have hn : ¬ p c = true := by rw [hc]; exact Bool.false_ne_true
    rw [List.takeWhile_cons_of_neg hn, List.dropWhile_cons_of_neg hn, List.append_nil]
    exact ⟨rfl, rfl⟩

theorem operator_extract_token (ws rest : List Char) (t str : String)
    (hws : ∀ c ∈ ws, isspace c = true) (ht : is_token t)
    (hrest : rest = [] ∨ ∃ c cs, rest = c :: cs ∧ isspace c = true) :
    istream.operator_extract ⟨ws ++ (t.data ++ rest), false, false⟩ str =
      (t, ⟨rest, rest.isEmpty, false⟩) := by
  obtain ⟨hne, htok⟩ := ht
  have hp : ∀ c ∈ t.data, (fun x => !isspace x) c = true := by
    intro c hc
    simp only [htok c hc, Bool.not_false]
  have hrest2 : rest = [] ∨ ∃ c cs, rest = c :: cs ∧ (fun x => !isspace x) c = false := by
    rcases hrest with h | ⟨c, cs, h, hc⟩
    · exact Or.inl h
    · exact Or.inr ⟨c, cs, h, by simp only [hc, Bool.not_true]⟩
  obtain ⟨htake, hdrop⟩ := takeWhile_append_stop (fun x => !isspace x) t.data rest hp hrest2
  cases hd : t.data with
  | nil => exact absurd hd hne
  | cons a as =>
    have ha : ¬ isspace a = true := by
      rw [htok a (by rw [hd]; exact List.mem_cons_self a as)]
      exact Bool.false_ne_true
    have hdw : (ws ++ (t.data ++ rest)).dropWhile isspace = a :: (as ++ rest) := by
      rw [List.dropWhile_append_of_pos hws, hd, List.cons_append,
        List.dropWhile_cons_of_neg ha]
    rw [hd, List.cons_append] at htake hdrop
    rw [← hd]
    have hg : (!(istream.good ⟨ws ++ (t.data ++ rest), false, false⟩)) = false := rfl
    unfold istream.operator_extract
    rw [hg]
    simp only [Bool.false_eq_true, if_false, hdw]
    rw [htake, hdrop, ← hd]

theorem config_text_cons (l : String × String) (ls : List (String × String))
    (tail : List Char) :
    config_text (l :: ls) tail = l.1.data ++ (' ' :: (l.2.data ++ config_rest ls tail)) := by
  cases ls with
  | nil => simp only [config_text, config_line, config_rest, List.append_assoc,
      List.cons_append]
  | cons l2 ls2 => simp only [config_text, config_line, config_rest, List.append_assoc,
      List.cons_append]

theorem config_rest_of_ne_nil (ls : List (String × String)) (tail : List Char)
    (h : ls ≠ []) : config_rest ls tail = '\n' :: config_text ls tail := by
  cases ls with
  | nil => exact absurd rfl h
  | cons l2 ls2 => rfl

theorem config_rest_cases (ls : List (String × String)) (tail : List Char)
    (htail : ∀ c ∈ tail, isspace c = true) :
    config_rest ls tail = [] ∨
      ∃ c cs, config_rest ls tail = c :: cs ∧ isspace c = true := by
  cases ls with
  | nil =>
    cases htl : tail with
    | nil => exact Or.inl rfl
    | cons c cs =>
      exact Or.inr ⟨c, cs, rfl, htail c (by rw [htl]; exact List.mem_cons_self c cs)⟩
  | cons l2 ls2 => exact Or.inr ⟨'\n', _, rfl, by decide⟩

theorem decode_function_line {T : Type} [Zero T] [Add T] [Mul T]
    (files : String → Option String) (stod : String → Except Exception T) (res : T)
    (ws rest : List Char) (name source : String)
    (hws : ∀ c ∈ ws, isspace c = true) (hname : is_token name) (hsource : is_token source)
    (hrest : rest = [] ∨ ∃ c cs, rest = c :: cs ∧ isspace c = true) :
    (decode_function files stod res
        ⟨ws ++ (name.data ++ (' ' :: (source.data ++ rest))), false, false⟩).1 =
      ⟨rest, rest.isEmpty, false⟩ ∧
    (decode_function files stod res
        ⟨ws ++ (name.data ++ (' ' :: (source.data ++ rest))), false, false⟩).2 =
      match files source with
      | none => .error (.runtime_error "Cannot open matrix_file")
      | some content =>
        match read_matrix stod (istream.on_string content) with
        | .error e => .error e
        | .ok matrix => decode_function_bind res name matrix := by
  have h1 := operator_extract_token ws (' ' :: (source.data ++ rest)) name "" hws hname
    (Or.inr ⟨' ', source.data ++ rest, rfl, by decide⟩)
  have h2 := operator_extract_token [' '] rest source ""
    (by intro c hc; rw [List.mem_singleton.mp hc]; decide) hsource hrest
  have h3 : (⟨' ' :: (source.data ++ rest), (' ' :: (source.data ++ rest)).isEmpty, false⟩ :
      istream) = ⟨[' '] ++ (source.data ++ rest), false, false⟩ := rfl
  rw [decode_function_stream, decode_function_eq, h1, h3, h2]
  exact ⟨rfl, rfl⟩

theorem config_loop_unrecognised {T : Type} [Zero T] [Add T] [Mul T]
    (files : String → Option String) (stod : String → Except Exception T) (res : T)
    (hstod : ∀ tok e, stod tok = .error e → e.thrown)
    (hsmall : ∀ source content, files source = some content → content.length < 2 ^ 64)
    (tail : List Char)
    (htail : ∀ c ∈ tail, isspace c = true) :
    ∀ (lines : List (String × String)) (ws : List Char) (pipe : Pipe (MatrixFunction T))
      (n : Nat), (∀ l ∈ lines, is_token l.1 ∧ is_token l.2) →
      (∃ l ∈ lines, l.1 ∉ recognised_names) → (∀ c ∈ ws, isspace c = true) →
      (ws ++ config_text lines tail).length < n →
      ∃ e, config_loop files stod res n ⟨ws ++ config_text lines tail, false, false⟩ pipe =
        .error e ∧ e.thrown := by
  intro lines
  induction lines with
  | nil =>
    intro ws pipe n _ hbad
    obtain ⟨l, hl, _⟩ := hbad
    cases hl
  | cons l ls ih =>
    intro ws pipe n htok hbad hws hn
    have hrest := config_rest_cases ls tail htail
    obtain ⟨hd1, hd2⟩ := decode_function_line files stod res ws _ l.1 l.2 hws
      (htok l (List.mem_cons_self l ls)).1 (htok l (List.mem_cons_self l ls)).2 hrest
    rw [config_text_cons] at hn ⊢
    cases n with
    | zero => omega
    | succ n =>
      rw [config_loop_succ files stod res n ⟨_, false, false⟩ pipe rfl]
      split
      · rename_i e hdec
        exact ⟨e, rfl, decode_function_error_thrown files stod res hstod hsmall _ e hdec⟩
      · rename_i f hdec
        have hname := decode_function_ok_name files stod res _ f hdec
        rw [operator_extract_token ws _ l.1 "" hws (htok l (List.mem_cons_self l ls)).1
          (Or.inr ⟨' ', _, rfl, by decide⟩)] at hname
        have hbad2 : ∃ l2 ∈ ls, l2.1 ∉ recognised_names := by
          obtain ⟨b, hb, hbn⟩ := hbad
          rcases List.mem_cons.mp hb with h | h
          · rw [h] at hbn
            exact absurd hname hbn
          · exact ⟨b, h, hbn⟩
        rw [hd1]
        cases ls with
        | nil =>
          obtain ⟨b, hb, _⟩ := hbad2
          cases hb
        | cons l2 ls2 =>
          have := ih ['\n'] (pipe.push_back f) n
            (fun x hx => htok x (List.mem_cons_of_mem l hx)) hbad2
            (by intro c hc; rw [List.mem_singleton.mp hc]; decide)
            (by
              simp only [List.length_append, List.length_cons, List.length_nil, config_rest] at hn ⊢
              omega)
          exact this

theorem operator_extract_blank (ws : List Char) (str : String) (eofbit failbit : Bool)
    (hws : ∀ c ∈ ws, isspace c = true) :
    (istream.operator_extract ⟨ws, eofbit, failbit⟩ str).1 = str ∧
      (istream.operator_extract ⟨ws, eofbit, failbit⟩ str).2.good = false := by
  unfold istream.operator_extract
  by_cases hg : (!(istream.good ⟨ws, eofbit, failbit⟩)) = true
  · rw [if_pos hg]
    refine ⟨rfl, ?_⟩
    simp only [istream.good, Bool.not_true, Bool.and_false]
  · rw [if_neg hg]
    have hd : ws.dropWhile isspace = [] := by
      have : (ws ++ []).dropWhile isspace = ([] : List Char).dropWhile isspace :=
        List.dropWhile_append_of_pos hws
      simpa using this
    simp only [hd]
    exact ⟨trivial, rfl⟩

theorem operator_extract_of_not_good (is : istream) (str : String) (h : is.good = false) :
    (is.operator_extract str).1 = str := by
  unfold istream.operator_extract
  rw [h]
  rfl

/-- A configuration stream that holds white space only, or nothing, makes
`decode_function` try to open the file of the empty name. -/
theorem decode_function_blank {T : Type} [Zero T] [Add T] [Mul T]
    (files : String → Option String) (stod : String → Except Exception T) (res : T)
    (ws : List Char) (hws : ∀ c ∈ ws, isspace c = true) (hfiles : files "" = none) :
    (decode_function files stod res ⟨ws, false, false⟩).2 =
      .error (.runtime_error "Cannot open matrix_file") := by
  obtain ⟨h1, h2⟩ := operator_extract_blank ws "" false false hws
  have h3 := operator_extract_of_not_good _ "" h2
  rw [decode_function_eq, h3, hfiles]

/-- A configuration of lines that ends in white space is always rejected: after the
last line the stream is not at its end, and `decode_function` runs once more on
the white space that is left. -/
theorem config_loop_trailing {T : Type} [Zero T] [Add T] [Mul T]
    (files : String → Option String) (stod : String → Except Exception T) (res : T)
    (hstod : ∀ tok e, stod tok = .error e → e.thrown)
    (hsmall : ∀ source content, files source = some content → content.length < 2 ^ 64)
    (hfiles : files "" = none)
    (tail : List Char) (htail : ∀ c ∈ tail, isspace c = true) (hne : tail ≠ []) :
    ∀ (lines : List (String × String)) (ws : List Char) (pipe : Pipe (MatrixFunction T))
      (n : Nat), (∀ l ∈ lines, is_token l.1 ∧ is_token l.2) →
      (∀ c ∈ ws, isspace c = true) → (ws ++ config_text lines tail).length < n →
      ∃ e, config_loop files stod res n ⟨ws ++ config_text lines tail, false, false⟩ pipe =
        .error e ∧ e.thrown := by
  intro lines
  induction lines with
  | nil =>
    intro ws pipe n _ hws hn
    cases n with
    | zero => omega
    | succ n =>
      have hall : ∀ c ∈ ws ++ config_text [] tail, isspace c = true := by
        intro c hc
        rcases List.mem_append.mp hc with h | h
        · exact hws c h
        · exact htail c h
      rw [config_loop_succ files stod res n ⟨_, false, false⟩ pipe rfl,
        decode_function_blank files stod res _ hall hfiles]
      exact ⟨_, rfl, by constructor <;> intro hc <;> cases hc⟩
  | cons l ls ih =>
    intro ws pipe n htok hws hn
    have hrest := config_rest_cases ls tail htail
    obtain ⟨hd1, hd2⟩ := decode_function_line files stod res ws _ l.1 l.2 hws
      (htok l (List.mem_cons_self l ls)).1 (htok l (List.mem_cons_self l ls)).2 hrest
    rw [config_text_cons] at hn ⊢
    cases n with
    | zero => omega
    | succ n =>
      rw [config_loop_succ files stod res n ⟨_, false, false⟩ pipe rfl]
      split
      · rename_i e hdec
        exact ⟨e, rfl, decode_function_error_thrown files stod res hstod hsmall _ e hdec⟩
      · rename_i f hdec
        rw [hd1]
        cases ls with
        | nil =>
          have hempty : tail.isEmpty = false := by
            cases htl : tail with
            | nil => exact absurd htl hne
            | cons c cs => rfl
          simp only [config_rest, hempty]
          have := ih [] (pipe.push_back f) n (fun x hx => by cases hx)
            (by intro c hc; cases hc)
            (by
              simp only [List.length_append, List.length_cons, List.length_nil,
                config_text, config_rest] at hn ⊢
              omega)
          simpa only [List.nil_append, config_text] using this
        | cons l2 ls2 =>
          exact ih ['\n'] (pipe.push_back f) n
            (fun x hx => htok x (List.mem_cons_of_mem l hx))
            (by intro c hc; rw [List.mem_singleton.mp hc]; decide)
            (by
              simp only [List.length_append, List.length_cons, List.length_nil, config_rest] at hn ⊢
              omega)

theorem decode_function_map_of_mem {T : Type} [Zero T] [Add T] [Mul T] (res : T)
    (s : String) (hs : s ∈ recognised_names) :
    3 ≤ s.length ∧ ∃ f, (decode_function_map res).operator_index s = .ok f := by
  simp only [recognised_names, List.mem_cons, List.mem_singleton, List.not_mem_nil,
    or_false] at hs
  rcases hs with h | h | h | h | h | h | h <;> subst h <;>
    exact ⟨by decide, _, rfl⟩

/-- The first line that fails decides the exception of `config`: with every line
before it decoded, a line with an unrecognised name of at least three
characters and an operand file that opens and reads as a matrix makes `config`
throw "value is not found". -/
theorem config_loop_first_failure {T : Type} [Zero T] [Add T] [Mul T]
    (files : String → Option String) (stod : String → Except Exception T) (res : T)
    (tail : List Char) (htail : ∀ c ∈ tail, isspace c = true)
    (name source : String) (rest : List (String × String))
    (hname : is_token name) (hsource : is_token source)
    (hbad : name ∉ recognised_names) (h3 : 3 ≤ name.length)
    (hfile : ∃ content M, files source = some content ∧
      read_matrix stod (istream.on_string content) = .ok M) :
    ∀ (pre : List (String × String)) (ws : List Char) (pipe : Pipe (MatrixFunction T))
      (n : Nat), (∀ l ∈ pre, (is_token l.1 ∧ is_token l.2) ∧ line_decodes files stod l) →
      (∀ c ∈ ws, isspace c = true) →
      (ws ++ config_text (pre ++ (name, source) :: rest) tail).length < n →
      config_loop files stod res n
          ⟨ws ++ config_text (pre ++ (name, source) :: rest) tail, false, false⟩ pipe =
        .error (.runtime_error "value is not found") := by
  obtain ⟨content, M, hfile, hread⟩ := hfile
  intro pre
  induction pre with
  | nil =>
    intro ws pipe n _ hws hn
    rw [List.nil_append] at hn ⊢
    obtain ⟨_, hd2⟩ := decode_function_line files stod res ws _ name source hws hname hsource
      (config_rest_cases rest tail htail)
    rw [hfile] at hd2
    simp only [hread] at hd2
    rw [decode_function_bind_eq res name M h3,
      decode_function_map_not_found res name hbad] at hd2
    rw [config_text_cons] at hn ⊢
    cases n with
    | zero => omega
    | succ n =>
      rw [config_loop_succ files stod res n ⟨_, false, false⟩ pipe rfl, hd2]
  | cons l pre ih =>
    intro ws pipe n hpre hws hn
    obtain ⟨⟨hl1, hl2⟩, hlname, lcontent, lM, hlfile, hlread⟩ :=
      hpre l (List.mem_cons_self l pre)
    obtain ⟨hlen, g, hg⟩ := decode_function_map_of_mem res l.1 hlname
    obtain ⟨hd1, hd2⟩ := decode_function_line files stod res ws _ l.1 l.2 hws hl1 hl2
      (config_rest_cases (pre ++ (name, source) :: rest) tail htail)
    rw [hlfile] at hd2
    simp only [hlread] at hd2
    rw [decode_function_bind_eq res l.1 lM hlen, hg] at hd2
    simp only [] at hd2
    have hne : pre ++ (name, source) :: rest ≠ [] := by
      intro hc
      have := congrArg List.length hc
      simp only [List.length_append, List.length_cons, List.length_nil] at this
      omega
    have hr := config_rest_of_ne_nil (pre ++ (name, source) :: rest) tail hne
    rw [List.cons_append, config_text_cons] at hn ⊢
    cases n with
    | zero => omega
    | succ n =>
      rw [config_loop_succ files stod res n ⟨_, false, false⟩ pipe rfl, hd2]
      simp only []
      rw [hd1, hr]
      rw [hr] at hn
      exact ih ['\n'] _ n (fun x hx => hpre x (List.mem_cons_of_mem l hx))
        (by intro c hc; rw [List.mem_singleton.mp hc]; decide)
        (by
          simp only [List.length_append, List.length_cons, List.length_nil] at hn ⊢
          omega)

theorem config_loop_eof {T : Type} [Zero T] [Add T] [Mul T]
    (files : String → Option String) (stod : String → Except Exception T) (res : T)
    (n : Nat) (is : istream) (pipe : Pipe (MatrixFunction T)) (h : is.eof = true) :
    config_loop files stod res n is pipe = .ok pipe := by
  cases n <;> simp only [config_loop, h, if_true]

/-- A configuration of lines that does not end in white space and whose lines are
all decoded yields one step of the pipeline for each line. -/
theorem config_loop_all_decoded {T : Type} [Zero T] [Add T] [Mul T]
    (files : String → Option String) (stod : String → Except Exception T) (res : T) :
    ∀ (lines : List (String × String)) (ws : List Char) (pipe : Pipe (MatrixFunction T))
      (n : Nat), lines ≠ [] →
      (∀ l ∈ lines, (is_token l.1 ∧ is_token l.2) ∧ line_decodes files stod l) →
      (∀ c ∈ ws, isspace c = true) → (ws ++ config_text lines []).length < n →
      ∃ p, config_loop files stod res n ⟨ws ++ config_text lines [], false, false⟩ pipe =
          .ok p ∧
        p.function_objects.length = pipe.function_objects.length + lines.length := by
  intro lines
  induction lines with
  | nil => intro ws pipe n h; exact absurd rfl h
  | cons l ls ih =>
    intro ws pipe n _ hlines hws hn
    obtain ⟨⟨hl1, hl2⟩, hlname, lcontent, lM, hlfile, hlread⟩ :=
      hlines l (List.mem_cons_self l ls)
    obtain ⟨hlen, g, hg⟩ := decode_function_map_of_mem res l.1 hlname
    obtain ⟨hd1, hd2⟩ := decode_function_line files stod res ws _ l.1 l.2 hws hl1 hl2
      (config_rest_cases ls [] (by intro c hc; cases hc))
    rw [hlfile] at hd2
    simp only [hlread] at hd2
    rw [decode_function_bind_eq res l.1 lM hlen, hg] at hd2
    simp only [] at hd2
    have hd3 : ∃ f, (decode_function files stod res
        ⟨ws ++ (l.1.data ++ (' ' :: (l.2.data ++ config_rest ls []))), false, false⟩).2 =
          .ok f := ⟨_, hd2⟩
    obtain ⟨f, hf⟩ := hd3
    rw [config_text_cons] at hn ⊢
    cases n with
    | zero => omega
    | succ n =>
      rw [config_loop_succ files stod res n ⟨_, false, false⟩ pipe rfl, hf]
      simp only []
      rw [hd1]
      cases ls with
      | nil =>
        refine ⟨pipe.push_back f, config_loop_eof files stod res n _ _ rfl, ?_⟩
        simp only [Pipe.push_back, List.length_append, List.length_singleton,
          List.length_nil, Nat.zero_add]
      | cons l2 ls2 =>
        obtain ⟨p, hp1, hp2⟩ := ih ['\n'] (pipe.push_back f) n (by intro hc; cases hc)
          (fun x hx => hlines x (List.mem_cons_of_mem l hx))
          (by intro c hc; rw [List.mem_singleton.mp hc]; decide)
          (by
            simp only [List.length_append, List.length_cons, List.length_nil,
              config_rest] at hn ⊢
            omega)
        refine ⟨p, hp1, ?_⟩
        have hpush : (pipe.push_back f).function_objects.length =
            pipe.function_objects.length + 1 := by
          simp only [Pipe.push_back, List.length_append, List.length_singleton]
        rw [hp2, hpush, List.length_cons, List.length_cons, List.length_cons]
        omega

theorem config_all_decoded {T : Type} [Zero T] [Add T] [Mul T]
    (files : String → Option String) (stod : String → Except Exception T) (res : T)
    (lines : List (String × String)) (hne : lines ≠ [])
    (hlines : ∀ l ∈ lines, (is_token l.1 ∧ is_token l.2) ∧ line_decodes files stod l) :
    ∃ p, config files stod res (istream.on_string ⟨config_text lines []⟩) = .ok p ∧
      p.function_objects.length = lines.length := by
  obtain ⟨p, h1, h2⟩ := config_loop_all_decoded files stod res lines [] Pipe.create
    ((config_text lines []).length + 1) hne hlines (by intro c hc; cases hc)
    (by rw [List.nil_append]; omega)
  refine ⟨p, h1, ?_⟩
  rw [h2]
  simp only [Pipe.create, List.length_nil, Nat.zero_add]

/-- A configuration of lines that ends in white space is rejected by `config`,
whatever its lines are. -/
theorem config_trailing_white_space {T : Type} [Zero T] [Add T] [Mul T]
    (files : String → Option String) (stod : String → Except Exception T) (res : T)
    (hstod : ∀ tok e, stod tok = .error e → e.thrown)
    (hsmall : ∀ source content, files source = some content → content.length < 2 ^ 64)
    (hfiles : files "" = none)
    (lines : List (String × String)) (tail : List Char)
    (hlines : ∀ l ∈ lines, is_token l.1 ∧ is_token l.2)
    (htail : ∀ c ∈ tail, isspace c = true) (hne : tail ≠ []) :
    ∃ e, config files stod res (istream.on_string ⟨config_text lines tail⟩) = .error e ∧
      e.thrown :=
  config_loop_trailing files stod res hstod hsmall hfiles tail htail hne lines [] Pipe.create
    ((config_text lines tail).length + 1) hlines (by intro c hc; cases hc)
    (by rw [List.nil_append]; omega)

/-- On the empty text `read_matrix` returns the matrix with one row and no column,
whatever the element type and `stod` are. -/
theorem read_matrix_empty_text {T : Type} [Zero T] (stod : String → Except Exception T) :
    read_matrix stod (istream.on_string "") = .ok ⟨[], 1, 0⟩ :=
  rfl

/-- The first line that is not decoded decides the exception of `config`: with
every line before it decoded, `config` throws what `decode_function` throws on
that line. -/
theorem config_loop_first_error {T : Type} [Zero T] [Add T] [Mul T]
    (files : String → Option String) (stod : String → Except Exception T) (res : T)
    (tail : List Char) (htail : ∀ c ∈ tail, isspace c = true)
    (name source : String) (rest : List (String × String)) (e : Exception)
    (hdec : ∀ ws : List Char, (∀ c ∈ ws, isspace c = true) →
      (decode_function files stod res
        ⟨ws ++ (name.data ++ (' ' :: (source.data ++ config_rest rest tail))), false, false⟩).2 =
        .error e) :
    ∀ (pre : List (String × String)) (ws : List Char) (pipe : Pipe (MatrixFunction T))
      (n : Nat), (∀ l ∈ pre, (is_token l.1 ∧ is_token l.2) ∧ line_decodes files stod l) →
      (∀ c ∈ ws, isspace c = true) →
      (ws ++ config_text (pre ++ (name, source) :: rest) tail).length < n →
      config_loop files stod res n
          ⟨ws ++ config_text (pre ++ (name, source) :: rest) tail, false, false⟩ pipe =
        .error e := by
  intro pre
  induction pre with
  | nil =>
    intro ws pipe n _ hws hn
    rw [List.nil_append] at hn ⊢
    rw [config_text_cons] at hn ⊢
    cases n with
    | zero => omega
    | succ n =>
      rw [config_loop_succ files stod res n ⟨_, false, false⟩ pipe rfl, hdec ws hws]
  | cons l pre ih =>
    intro ws pipe n hpre hws hn
    obtain ⟨⟨hl1, hl2⟩, hlname, lcontent, lM, hlfile, hlread⟩ :=
      hpre l (List.mem_cons_self l pre)
    obtain ⟨hlen, g, hg⟩ := decode_function_map_of_mem res l.1 hlname
    obtain ⟨hd1, hd2⟩ := decode_function_line files stod res ws _ l.1 l.2 hws hl1 hl2
      (config_rest_cases (pre ++ (name, source) :: rest) tail htail)
    rw [hlfile] at hd2
    simp only [hlread] at hd2
    rw [decode_function_bind_eq res l.1 lM hlen, hg] at hd2
    simp only [] at hd2
    have hne : pre ++ (name, source) :: rest ≠ [] := by
      intro hc
      have := congrArg List.length hc
      simp only [List.length_append, List.length_cons, List.length_nil] at this
      omega
    have hr := config_rest_of_ne_nil (pre ++ (name, source) :: rest) tail hne
    rw [List.cons_append, config_text_cons] at hn ⊢
    cases n with
    | zero => omega
    | succ n =>
      rw [config_loop_succ files stod res n ⟨_, false, false⟩ pipe rfl, hd2]
      simp only []
      rw [hd1, hr]
      rw [hr] at hn
      exact ih ['\n'] _ n (fun x hx => hpre x (List.mem_cons_of_mem l hx))
        (by intro c hc; rw [List.mem_singleton.mp hc]; decide)
        (by
          simp only [List.length_append, List.length_cons, List.length_nil] at hn ⊢
          omega)

/-- The exception of `config` on a configuration whose first line that is not
decoded is `name source`: the exception `decode_function` throws on that
line. -/
theorem config_first_error {T : Type} [Zero T] [Add T] [Mul T]
    (files : String → Option String) (stod : String → Except Exception T) (res : T)
    (tail : List Char) (htail : ∀ c ∈ tail, isspace c = true)
    (pre : List (String × String)) (name source : String) (rest : List (String × String))
    (e : Exception)
    (hlines : ∀ l ∈ pre ++ (name, source) :: rest, is_token l.1 ∧ is_token l.2)
    (hpre : ∀ l ∈ pre, line_decodes files stod l)
    (herr : ∀ M : Except Exception (MatrixFunction T),
      (M = match files source with
        | none => .error (.runtime_error "Cannot open matrix_file")
        | some content =>
          match read_matrix stod (istream.on_string content) with
          | .error e => .error e
          | .ok matrix => decode_function_bind res name matrix) → M = .error e) :
    config files stod res
        (istream.on_string ⟨config_text (pre ++ (name, source) :: rest) tail⟩) = .error e := by
  have htok := hlines (name, source) (List.mem_append.mpr (Or.inr (List.mem_cons_self _ _)))
  exact config_loop_first_error files stod res tail htail name source rest e
    (fun ws hws =>
      herr _ (decode_function_line files stod res ws _ name source hws htok.1 htok.2
        (config_rest_cases rest tail htail)).2)
    pre [] Pipe.create
    ((config_text (pre ++ (name, source) :: rest) tail).length + 1)
    (fun l hl => ⟨hlines l (List.mem_append.mpr (Or.inl hl)), hpre l hl⟩)
    (by intro c hc; cases hc) (by rw [List.nil_append]; omega)

theorem example_files_small (source content : String)
    (h : example_files source = some content) : content.length < 2 ^ 64 := by
  unfold example_files at h
  split at h
  · cases h
    decide
  · split at h
    · cases h
      decide
    · cases h

/-! ## The claims on composition, the pipeline built from a configuration, and storage -/

/-- C11: for unary callables `f1` and `f2` and every argument `x`, the callable
`compose(f1, f2)` applied to `x` is `f1 (f2 x)`: `f2` is applied first and `f1`
to its result. -/
theorem C11_compose_applies_second_then_first {A B C : Type} (f1 : B → C) (f2 : A → B)
    (x : A) :
    (compose f1 f2).operator_call x = f1 (f2 x) ∧
      (compose f1 f2).inner_function1 = f1 ∧ (compose f1 f2).inner_function2 = f2 :=
  ⟨rfl, rfl, rfl⟩

/-- C12, at the failing input: on the configuration stream
`"mat_add_mat operandFile.txt\n"` `config` returns no pipeline but throws
"Cannot open matrix_file": after the first step the stream is not at its end,
so `decode_function` runs once more, reads two empty names and tries to open
the file of the empty name.  On the same line without the final newline
`config` returns the pipeline of exactly one step, which maps `[[1,2],[3,4]]`
to `[[6,8],[10,12]]`. -/
theorem C12_config_rejects_final_newline :
    config example_files stod_digits (0 : Int)
        (istream.on_string "mat_add_mat operandFile.txt\n") =
      .error (.runtime_error "Cannot open matrix_file") ∧
    ∃ p, config example_files stod_digits (0 : Int)
        (istream.on_string "mat_add_mat operandFile.txt") = .ok p ∧
      p.function_objects.length = 1 ∧
      p.operator_call ⟨[1, 2, 3, 4], 2, 2⟩ = .ok ⟨[6, 8, 10, 12], 2, 2⟩ :=
  ⟨rfl, _, rfl, rfl, rfl⟩

/-- C13, at the failing input: the pipeline built from `"vec_dot_vec v.txt"`, applied
to the 1-by-3 matrix `[1,2,3]`, yields a 1-by-1 matrix whose element is 32 only
when the accumulator of `Matrix::dot` happens to start from 0; started from 7
the element is 39. -/
theorem C13_vec_dot_vec_end_to_end :
    (∃ p, config example_files stod_digits (0 : Int)
        (istream.on_string "vec_dot_vec v.txt") = .ok p ∧
      p.operator_call ⟨[1, 2, 3], 1, 3⟩ = .ok ⟨[32], 1, 1⟩) ∧
    (∃ p, config example_files stod_digits (7 : Int)
        (istream.on_string "vec_dot_vec v.txt") = .ok p ∧
      p.operator_call ⟨[1, 2, 3], 1, 3⟩ = .ok ⟨[39], 1, 1⟩) :=
  ⟨⟨_, rfl, rfl⟩, ⟨_, rfl, rfl⟩⟩

/-- C14 fails as stated: with the unrecognised name `foo` and an operand file that
cannot be opened, `config` throws "Cannot open matrix_file", and with the
unrecognised name `ab` and the operand file `v.txt` it throws
`std::out_of_range`; neither is the not-found error. -/
theorem C14_counterexample :
    config example_files stod_digits (0 : Int) (istream.on_string "foo nofile.txt") =
        .error (.runtime_error "Cannot open matrix_file") ∧
      config example_files stod_digits (0 : Int) (istream.on_string "ab v.txt") =
        .error .out_of_range ∧
      Exception.runtime_error "Cannot open matrix_file" ≠
        Exception.runtime_error "value is not found" ∧
      Exception.out_of_range ≠ Exception.runtime_error "value is not found" :=
  ⟨rfl, rfl, by decide, by decide⟩

/-- C14, amended: for every configuration of lines `name source` (tokens, one
space between them, a newline between lines, white space or nothing after the
last; operand files of fewer than `2 ^ 64` characters) in which some name is
not recognised, `config` returns no pipeline but throws an exception.  The
first line that is not decoded decides the exception: "Cannot open matrix_file"
when its operand file cannot be opened, whatever its name; the exception of
`read_matrix` when the file opens and does not read as a matrix, whatever its
name; and, with the file read as a matrix, `std::out_of_range` for a name of
fewer than three characters and "value is not found" for an unrecognised name
of at least three characters. -/
theorem C14_unrecognised_name_fails {T : Type} [Zero T] [Add T] [Mul T]
    (files : String → Option String) (stod : String → Except Exception T) (res : T)
    (lines : List (String × String)) (tail : List Char)
    (hstod : ∀ tok e, stod tok = .error e → e.thrown)
    (hsmall : ∀ source content, files source = some content → content.length < 2 ^ 64)
    (hlines : ∀ l ∈ lines, is_token l.1 ∧ is_token l.2)
    (htail : ∀ c ∈ tail, isspace c = true)
    (hbad : ∃ l ∈ lines, l.1 ∉ recognised_names) :
    (∃ e, config files stod res (istream.on_string ⟨config_text lines tail⟩) = .error e ∧
        e.thrown) ∧
      (∀ pre name source rest, lines = pre ++ (name, source) :: rest →
        (∀ l ∈ pre, line_decodes files stod l) →
        name ∉ recognised_names → 3 ≤ name.length →
        (∃ content M, files source = some content ∧
          read_matrix stod (istream.on_string content) = .ok M) →
        config files stod res (istream.on_string ⟨config_text lines tail⟩) =
          .error (.runtime_error "value is not found")) ∧
      (∀ pre name source rest, lines = pre ++ (name, source) :: rest →
        (∀ l ∈ pre, line_decodes files stod l) → files source = none →
        config files stod res (istream.on_string ⟨config_text lines tail⟩) =
          .error (.runtime_error "Cannot open matrix_file")) ∧
      (∀ pre name source rest content e, lines = pre ++ (name, source) :: rest →
        (∀ l ∈ pre, line_decodes files stod l) → files source = some content →
        read_matrix stod (istream.on_string content) = .error e →
        config files stod res (istream.on_string ⟨config_text lines tail⟩) = .error e) ∧
      (∀ pre name source rest, lines = pre ++ (name, source) :: rest →
        (∀ l ∈ pre, line_decodes files stod l) → name.length < 3 →
        (∃ content M, files source = some content ∧
          read_matrix stod (istream.on_string content) = .ok M) →
        config files stod res (istream.on_string ⟨config_text lines tail⟩) =
          .error .out_of_range) := by
  refine ⟨?_, ?_, ?_, ?_, ?_⟩
  · have h := config_loop_unrecognised files stod res hstod hsmall tail htail lines []
      Pipe.create ((config_text lines tail).length + 1) hlines hbad
      (by intro c hc; cases hc) (by rw [List.nil_append]; omega)
    exact h
  · intro pre name source rest hl hpre hname h3 hfile
    subst hl
    have htok := hlines (name, source)
      (List.mem_append.mpr (Or.inr (List.mem_cons_self _ _)))
    have h := config_loop_first_failure files stod res tail htail name source rest
      htok.1 htok.2 hname h3 hfile pre [] Pipe.create
      ((config_text (pre ++ (name, source) :: rest) tail).length + 1)
      (fun l hl => ⟨hlines l (List.mem_append.mpr (Or.inl hl)), hpre l hl⟩)
      (by intro c hc; cases hc) (by rw [List.nil_append]; omega)
    exact h
  · intro pre name source rest hl hpre hfile
    subst hl
    apply config_first_error files stod res tail htail pre name source rest _ hlines hpre
    intro M hM
    rw [hfile] at hM
    exact hM
  · intro pre name source rest content e hl hpre hfile hread
    subst hl
    apply config_first_error files stod res tail htail pre name source rest _ hlines hpre
    intro M hM
    rw [hfile] at hM
    simp only [hread] at hM
    exact hM
  · intro pre name source rest hl hpre h3 hfile
    obtain ⟨content, M0, hfile, hread⟩ := hfile
    subst hl
    apply config_first_error files stod res tail htail pre name source rest _ hlines hpre
    intro M hM
    rw [hfile] at hM
    simp only [hread] at hM
    rw [decode_function_bind_short res name M0 h3] at hM
    exact hM

/-- C14 amended, at the line `foo v.txt` followed by a newline: `foo` is not
recognised, `v.txt` opens and reads as a matrix, and `config` throws "value is
not found". -/
theorem C14_witness :
    (is_token "foo" ∧ is_token "v.txt" ∧ "foo" ∉ recognised_names) ∧
      config example_files stod_digits (0 : Int) (istream.on_string "foo v.txt\n") =
        .error (.runtime_error "value is not found") :=
  ⟨⟨by unfold is_token; decide, by unfold is_token; decide, by decide⟩,
    (C14_unrecognised_name_fails example_files stod_digits (0 : Int) [("foo", "v.txt")]
      ['\n'] stod_digits_thrown example_files_small
      (by
        intro l hl
        rw [List.mem_singleton.mp hl]
        exact ⟨by unfold is_token; decide, by unfold is_token; decide⟩)
      (by intro c hc; rw [List.mem_singleton.mp hc]; decide)
      ⟨("foo", "v.txt"), List.mem_singleton.mpr rfl, by decide⟩).2.1
      [] "foo" "v.txt" [] rfl (by intro l hl; cases hl) (by decide) (by decide)
      ⟨"4 5 6", ⟨[4, 5, 6], 1, 3⟩, rfl, rfl⟩⟩
/-- C15: move-constructing `N` from `M` leaves `M` empty (`rows == 0`, `cols == 0`,
no buffer, `size() == 0`) and gives `N` the row count, the column count and the
buffer of `M`, elements in the same order. -/
theorem C15_move_construct {T : Type} (M : Matrix T) :
    (M.move_construct).2.row_count = 0 ∧ (M.move_construct).2.element_count = 0 ∧
      (M.move_construct).2.data = [] ∧ (M.move_construct).2.size = 0 ∧
      (M.move_construct).1.row_count = M.row_count ∧
      (M.move_construct).1.element_count = M.element_count ∧
      (M.move_construct).1.data = M.data ∧ (M.move_construct).1 = M :=
  ⟨rfl, rfl, rfl, rfl, rfl, rfl, rfl, rfl⟩

/-- C16, at the failing input: the 2-by-2 matrix `[[1,2],[3,4]]` assigned to itself
by move assignment ends up empty, with 0 rows, 0 columns and no buffer, while
assigned to itself by copy assignment it stays as it was. -/
theorem C16_self_move_assignment_empties :
    (Store.operator_assign_move (fun _ => (⟨[1, 2, 3, 4], 2, 2⟩ : Matrix Int)) 0 0) 0 =
        ⟨[], 0, 0⟩ ∧
      ((Store.operator_assign_copy (fun _ => (⟨[1, 2, 3, 4], 2, 2⟩ : Matrix Int)) 0 0).1) 0 =
        ⟨[1, 2, 3, 4], 2, 2⟩ :=
  ⟨rfl, rfl⟩

/-- C17, at the failing input: on the empty text `read_matrix` throws nothing and
returns the matrix with 1 row and 0 columns, and on a text of two empty lines
the matrix with 2 rows and 0 columns; a second line with another number of
tokens than the first is rejected with "Wrong file format.", and a text of two
lines of two numbers is read row by row. -/
theorem C17_read_matrix_accepts_empty_text :
    read_matrix stod_digits (istream.on_string "") = .ok ⟨[], 1, 0⟩ ∧
      read_matrix stod_digits (istream.on_string "\n\n") = .ok ⟨[], 2, 0⟩ ∧
      read_matrix stod_digits (istream.on_string "1 2\n3\n") =
        .error (.runtime_error "Wrong file format.") ∧
      read_matrix stod_digits (istream.on_string "5 6\n7 8\n") = .ok ⟨[5, 6, 7, 8], 2, 2⟩ :=
  ⟨rfl, rfl, rfl, rfl⟩

/-- C18, at the failing input: `uninitialized_copy` from the three live objects at
the addresses 0, 1, 2 to the addresses 10, 11, 12, where the second copy (to
address 11) throws.  One destination element, at 10, has been constructed; the
rollback calls `destroy` on the addresses 1 to 10: on the source elements 1 and
2, on the seven addresses 3 to 9 that hold no object, and last on 10.  With the
destination below the source the rollback does not end at all.  The rollback of
`uninitialized_default_construct` and `uninitialized_fill`, on the same
destination, calls `destroy` on 10 alone. -/
theorem C18_uninitialized_copy_rollback_destroys_source :
    detail.rollback.uninitialized_copy
        (fun p _ => if p = 11 then some (.runtime_error "copy") else none) 0 3 10
        ⟨[0, 1, 2], []⟩ =
      some (⟨[0], [1, 2, 3, 4, 5, 6, 7, 8, 9, 10]⟩, .error (.runtime_error "copy")) ∧
    detail.rollback.uninitialized_copy
        (fun p _ => if p = 1 then some (.runtime_error "copy") else none) 10 13 0
        ⟨[10, 11, 12], []⟩ = none ∧
    detail.rollback.uninitialized_default_construct
        (fun p => if p = 11 then some (.runtime_error "copy") else none) 10 13
        ⟨[0, 1, 2], []⟩ =
      some (⟨[0, 1, 2], [10]⟩, .error (.runtime_error "copy")) ∧
    detail.rollback.uninitialized_fill
        (fun p => if p = 11 then some (.runtime_error "copy") else none) 10 13
        ⟨[0, 1, 2], []⟩ =
      some (⟨[0, 1, 2], [10]⟩, .error (.runtime_error "copy")) :=
  ⟨rfl, rfl, rfl, rfl⟩

/-- C19 fails as stated: the constructor called with `2 ^ 32` rows and `2 ^ 32`
columns computes its element count in `size_type`, where `2 ^ 32 * 2 ^ 32` is
0: the matrix has an empty buffer and `size() == 0`, while its rows times its
columns are `2 ^ 64`, and so has the matrix of the fill constructor. -/
theorem C19_counterexample :
    (Matrix.create (2 ^ 32) (2 ^ 32) : Matrix Int).row_count *
        (Matrix.create (2 ^ 32) (2 ^ 32) : Matrix Int).element_count = 2 ^ 64 ∧
      (Matrix.create (2 ^ 32) (2 ^ 32) : Matrix Int).size = 0 ∧
      (Matrix.create (2 ^ 32) (2 ^ 32) : Matrix Int).data = [] ∧
      (Matrix.create_fill (2 ^ 32) (2 ^ 32) (7 : Int)).size = 0 ∧
      (Matrix.create_fill (2 ^ 32) (2 ^ 32) (7 : Int)).data = [] ∧
      ¬ (Matrix.create (2 ^ 32) (2 ^ 32) : Matrix Int).wf :=
  ⟨by decide, rfl, rfl, rfl, rfl, by decide⟩

/-- C19, as amended: `size()` is `rows * cols` modulo `2 ^ 64`, which for a
well-formed matrix is `rows * cols`, the number of elements of its buffer; the
constructors with dimensions give a buffer of `rows * cols` modulo `2 ^ 64`
elements, so for `rows * cols < 2 ^ 64` a well-formed matrix with a buffer of
exactly `rows * cols` elements, empty when `rows == 0` or `cols == 0`, all
equal to the fill value for the fill constructor; copy and move construction of
a well-formed matrix, and a successful `+=`, scalar `*=` or matrix `*=` on
well-formed operands, give a well-formed matrix again; and element `(i, j)` of
a well-formed matrix is the element at index `i * cols + j` of the buffer,
inside it for `i < rows` and `j < cols`. -/
theorem C19_size_and_row_major {T : Type} [Semiring T] (r c : Nat) (v x : T)
    (A B : Matrix T) (hA : A.wf) (hB : B.wf) :
    (∀ M : Matrix T, M.size = (M.row_count * M.element_count) % 2 ^ 64) ∧
      (∀ M : Matrix T, M.wf →
        M.size = M.row_count * M.element_count ∧
        M.data.length = M.row_count * M.element_count) ∧
      ((Matrix.create r c : Matrix T).row_count = r ∧
        (Matrix.create r c : Matrix T).element_count = c ∧
        (Matrix.create r c : Matrix T).data.length = (r * c) % 2 ^ 64 ∧
        (r * c < 2 ^ 64 → (Matrix.create r c : Matrix T).wf ∧
          (Matrix.create r c : Matrix T).data.length = r * c)) ∧
      ((Matrix.create_fill r c v).row_count = r ∧
        (Matrix.create_fill r c v).element_count = c ∧
        (Matrix.create_fill r c v).data.length = (r * c) % 2 ^ 64 ∧
        (r * c < 2 ^ 64 → (Matrix.create_fill r c v).wf ∧
          (Matrix.create_fill r c v).data.length = r * c) ∧
        ∀ y ∈ (Matrix.create_fill r c v).data, y = v) ∧
      (r = 0 ∨ c = 0 →
        (Matrix.create r c : Matrix T).size = 0 ∧ (Matrix.create r c : Matrix T).data = [] ∧
        (Matrix.create_fill r c v).size = 0 ∧ (Matrix.create_fill r c v).data = []) ∧
      (Matrix.copy A = .ok A) ∧
      ((A.move_construct).1.wf ∧ (A.move_construct).2.wf) ∧
      (∀ R, A.operator_plus_eq B = (R, .ok ()) → R.wf) ∧
      (∀ R, A.operator_mul_eq_scalar x = (R, .ok ()) → R.wf) ∧
      (∀ R, A.operator_mul_eq B = (R, .ok ()) → R.wf) ∧
      (∀ i j, i < A.row_count → j < A.element_count →
        ∃ h : i * A.element_count + j < A.data.length,
          A.operator_call i j = .ok (A.data.get ⟨i * A.element_count + j, h⟩)) := by
  have hzero : r = 0 ∨ c = 0 → r * c = 0 := by
    rintro (h | h) <;> simp [h]
  have hcl : (Matrix.create r c : Matrix T).data.length = (r * c) % 2 ^ 64 := by
    rw [Matrix.create_length, size_t_mul_eq_mod]
  have hfl : (Matrix.create_fill r c v).data.length = (r * c) % 2 ^ 64 := by
    rw [Matrix.create_fill_data, List.length_replicate, size_t_mul_eq_mod]
  refine ⟨fun M => ?_, fun M hM => ⟨?_, hM.1⟩, ⟨rfl, rfl, hcl, fun hb => ?_⟩,
    ⟨rfl, rfl, hfl, fun hb => ?_, ?_⟩, ?_, Matrix.copy_eq A hA,
    ⟨hA, rfl, Nat.two_pow_pos 64⟩,
    fun R h => Matrix.operator_plus_eq_wf A B R hA hB h,
    fun R h => Matrix.operator_mul_eq_scalar_wf A R x hA h,
    fun R h => Matrix.operator_mul_eq_wf A B R h, ?_⟩
  · rw [Matrix.size, size_t_mul_eq_mod, Nat.mul_comm]
  · rw [Matrix.size_eq_of_wf M hM, hM.1]
  · exact ⟨Matrix.create_wf r c hb, by rw [hcl, Nat.mod_eq_of_lt hb]⟩
  · exact ⟨Matrix.create_fill_wf r c v hb, by rw [hfl, Nat.mod_eq_of_lt hb]⟩
  · intro y hy
    rw [Matrix.create_fill_data] at hy
    exact List.eq_of_mem_replicate hy
  · intro h
    have h0 := hzero h
    have hb : r * c < 2 ^ 64 := by
      rw [h0]
      exact Nat.two_pow_pos 64
    have hs : size_t_mul r c = 0 := by rw [size_t_mul_of_lt hb, h0]
    have hs2 : size_t_mul c r = 0 := by rw [size_t_mul_eq_mod, Nat.mul_comm, h0, Nat.zero_mod]
    refine ⟨?_, ?_, ?_, ?_⟩
    · exact hs2
    · exact List.eq_nil_of_length_eq_zero (by rw [Matrix.create_length, hs])
    · exact hs2
    · rw [Matrix.create_fill_data, hs, List.replicate_zero]
  · intro i j hi hj
    have hlt := Matrix.index_lt hi hj
    have h : i * A.element_count + j < A.data.length := by
      rw [hA.1]
      exact hlt
    have hie : A.index i j = i * A.element_count + j :=
      Matrix.index_eq (by have := hA.2; omega)
    refine ⟨h, ?_⟩
    simp only [Matrix.operator_call, hie, List.getElem?_eq_getElem h, List.get_eq_getElem]

/-- C19 at the 2-by-2 matrices `[[1,2],[3,4]]` and `[[5,6],[7,8]]`. -/
theorem C19_witness :
    ((⟨[1, 2, 3, 4], 2, 2⟩ : Matrix Int).wf ∧ (⟨[5, 6, 7, 8], 2, 2⟩ : Matrix Int).wf) ∧
      (Matrix.create_fill 0 3 (7 : Int)).data = [] ∧
      Matrix.copy (⟨[1, 2, 3, 4], 2, 2⟩ : Matrix Int) = .ok ⟨[1, 2, 3, 4], 2, 2⟩ := by
  have h := C19_size_and_row_major 0 3 (7 : Int) 1 ⟨[1, 2, 3, 4], 2, 2⟩ ⟨[5, 6, 7, 8], 2, 2⟩
    (by decide) (by decide)
  exact ⟨⟨by decide, by decide⟩, (h.2.2.2.2.1 (Or.inl rfl)).2.2.2, h.2.2.2.2.2.1⟩

/-- C20: on a stream whose `eofbit` is not set, as every stream is before the first
read, `config` runs `decode_function` before it tests for the end of the stream,
so that a pipeline it returns has at least one step; and on the empty stream,
the file of the empty name not being there to open, it throws "Cannot open
matrix_file". -/
theorem C20_config_never_returns_empty_pipeline {T : Type} [Zero T] [Add T] [Mul T]
    (files : String → Option String) (stod : String → Except Exception T) (res : T)
    (is : istream) (p : Pipe (MatrixFunction T)) (h0 : is.eof = false)
    (h : config files stod res is = .ok p) :
    1 ≤ p.function_objects.length ∧
      (config files stod res is =
        match (decode_function files stod res is).2 with
        | .error e => .error e
        | .ok f => config_loop files stod res is.buf.length
            (decode_function files stod res is).1 (Pipe.create.push_back f)) ∧
      (∀ s : String, (istream.on_string s).eof = false) ∧
      (files "" = none →
        config files stod res (istream.on_string "") =
          .error (.runtime_error "Cannot open matrix_file")) := by
  refine ⟨?_, ?_, fun _ => rfl, ?_⟩
  · have := (config_loop_length files stod res _ is Pipe.create p h).2 h0
    simpa [Pipe.create] using this
  · rw [config, config_loop_succ files stod res _ is _ h0]
  · intro hf
    have h1 : (istream.on_string "").eof = false := rfl
    have h2 : (((istream.on_string "").operator_extract "").2.operator_extract "").1 = "" :=
      rfl
    rw [config, config_loop_succ files stod res _ _ _ h1, decode_function_eq, h2, hf]

/-- C20 at the one-line configuration `mat_add_mat operandFile.txt` and at the empty
configuration. -/
theorem C20_witness :
    ∃ p, config example_files stod_digits (0 : Int)
        (istream.on_string "mat_add_mat operandFile.txt") = .ok p ∧
      1 ≤ p.function_objects.length ∧
      config example_files stod_digits (0 : Int) (istream.on_string "") =
        .error (.runtime_error "Cannot open matrix_file") := by
  refine ⟨_, rfl, ?_, ?_⟩
  · exact (C20_config_never_returns_empty_pipeline example_files stod_digits (0 : Int)
      (istream.on_string "mat_add_mat operandFile.txt") _ rfl rfl).1
  · exact (C20_config_never_returns_empty_pipeline example_files stod_digits (0 : Int)
      (istream.on_string "mat_add_mat operandFile.txt") _ rfl rfl).2.2.2 rfl

end MatrixPipe
